import Mathlib

/-!
Verification development for the syscall_extract repository.

This file gives a shallow embedding of the core data model and operations of
the repository (the files `model.py`, `type_utils.py`, `function_extractor.py`,
`syscall_extractor.py`, `header_utils.py` and `output_formatter.py`), and
settles a list of claims about them.  Python dictionaries are modelled as
association structures or lookup functions, Python `None` as `Option.none`,
Python exceptions as `Option`/`Except` failures, and the mutable
`processing_types` list of `extract_type_info` as an explicitly threaded
stack together with a recursion-depth fuel parameter.
-/

/-! ## Data model (`model.py`) -/

/-- `TypeQualifier` enum from `model.py`. -/
inductive TypeQualifier
  | CONST
  | VOLATILE
  | RESTRICT
deriving DecidableEq, Repr

/-- `StorageClass` enum from `model.py`. -/
inductive StorageClass
  | AUTO
  | REGISTER
  | STATIC
  | EXTERN
  | TYPEDEF
deriving DecidableEq, Repr

/-- `StructType` enum from `model.py`. -/
inductive StructType
  | STRUCT
  | UNION
  | ENUM
deriving DecidableEq, Repr

/-- `EnumConstant` dataclass from `model.py`. -/
structure EnumConstant where
  name : String
  value : Option Int
deriving DecidableEq, Repr

/-- The `TypeInfo` dataclass from `model.py`.  The constructor arguments are the
dataclass fields in source order; a `StructField` (a named field of a struct or
union) is embedded as a `String × TypeInfo` pair.  `Optional[X]` fields become
`Option`; the distinction between Python `None` and an empty list is kept. -/
inductive TypeInfo where
  | mk
      (name : String)
      (base_type : Option String)
      (qualifiers : Option (List TypeQualifier))
      (storage_class : Option StorageClass)
      (is_typedef : Bool)
      (underlying_type : Option TypeInfo)
      (pointer_to : Option TypeInfo)
      (is_array : Bool)
      (array_size : Option Int)
      (array_element : Option TypeInfo)
      (is_function : Bool)
      (return_type : Option TypeInfo)
      (arguments : Option (List TypeInfo))
      (is_structural : Bool)
      (struct_type : Option StructType)
      (struct_fields : Option (List (String × TypeInfo)))
      (struct_anonymous : Bool)
      (enum_constants : Option (List EnumConstant))
      (is_elaborated : Bool)

/-- `StructField` from `model.py`, as a name / type pair. -/
abbrev StructField := String × TypeInfo

/-- Field name of a `StructField`. -/
def StructField.fname (f : StructField) : String := f.1

/-- `type_info` of a `StructField`. -/
def StructField.type_info (f : StructField) : TypeInfo := f.2

def TypeInfo.name : TypeInfo → String
  | .mk n _ _ _ _ _ _ _ _ _ _ _ _ _ _ _ _ _ _ => n

def TypeInfo.base_type : TypeInfo → Option String
  | .mk _ b _ _ _ _ _ _ _ _ _ _ _ _ _ _ _ _ _ => b

def TypeInfo.qualifiers : TypeInfo → Option (List TypeQualifier)
  | .mk _ _ q _ _ _ _ _ _ _ _ _ _ _ _ _ _ _ _ => q

def TypeInfo.storage_class : TypeInfo → Option StorageClass
  | .mk _ _ _ sc _ _ _ _ _ _ _ _ _ _ _ _ _ _ _ => sc

def TypeInfo.is_typedef : TypeInfo → Bool
  | .mk _ _ _ _ it _ _ _ _ _ _ _ _ _ _ _ _ _ _ => it

def TypeInfo.underlying_type : TypeInfo → Option TypeInfo
  | .mk _ _ _ _ _ ut _ _ _ _ _ _ _ _ _ _ _ _ _ => ut

def TypeInfo.pointer_to : TypeInfo → Option TypeInfo
  | .mk _ _ _ _ _ _ pt _ _ _ _ _ _ _ _ _ _ _ _ => pt

def TypeInfo.is_array : TypeInfo → Bool
  | .mk _ _ _ _ _ _ _ ia _ _ _ _ _ _ _ _ _ _ _ => ia

def TypeInfo.array_size : TypeInfo → Option Int
  | .mk _ _ _ _ _ _ _ _ asz _ _ _ _ _ _ _ _ _ _ => asz

def TypeInfo.array_element : TypeInfo → Option TypeInfo
  | .mk _ _ _ _ _ _ _ _ _ ae _ _ _ _ _ _ _ _ _ => ae

def TypeInfo.is_function : TypeInfo → Bool
  | .mk _ _ _ _ _ _ _ _ _ _ ifn _ _ _ _ _ _ _ _ => ifn

def TypeInfo.return_type : TypeInfo → Option TypeInfo
  | .mk _ _ _ _ _ _ _ _ _ _ _ rt _ _ _ _ _ _ _ => rt

def TypeInfo.arguments : TypeInfo → Option (List TypeInfo)
  | .mk _ _ _ _ _ _ _ _ _ _ _ _ ar _ _ _ _ _ _ => ar

def TypeInfo.is_structural : TypeInfo → Bool
  | .mk _ _ _ _ _ _ _ _ _ _ _ _ _ istr _ _ _ _ _ => istr

def TypeInfo.struct_type : TypeInfo → Option StructType
  | .mk _ _ _ _ _ _ _ _ _ _ _ _ _ _ st _ _ _ _ => st

def TypeInfo.struct_fields : TypeInfo → Option (List StructField)
  | .mk _ _ _ _ _ _ _ _ _ _ _ _ _ _ _ sf _ _ _ => sf

def TypeInfo.struct_anonymous : TypeInfo → Bool
  | .mk _ _ _ _ _ _ _ _ _ _ _ _ _ _ _ _ sa _ _ => sa

def TypeInfo.enum_constants : TypeInfo → Option (List EnumConstant)
  | .mk _ _ _ _ _ _ _ _ _ _ _ _ _ _ _ _ _ ec _ => ec

def TypeInfo.is_elaborated : TypeInfo → Bool
  | .mk _ _ _ _ _ _ _ _ _ _ _ _ _ _ _ _ _ _ ie => ie

/-- `TypeInfo.is_pointer` from `model.py`: `pointer_to is not None`. -/
def TypeInfo.is_pointer (t : TypeInfo) : Bool := t.pointer_to.isSome

/-- `TypeInfo.is_basic_type` from `model.py`. -/
def TypeInfo.is_basic_type (t : TypeInfo) : Bool :=
  !t.is_array && !t.is_function && !t.is_structural && !t.is_pointer &&
    ! t.is_typedef

/-- `TypeInfo.is_primitive` from `model.py`. -/
def TypeInfo.is_primitive (t : TypeInfo) : Bool :=
  t.base_type == some t.name && !t.is_structural && !t.is_array && !t.is_function
    && t.qualifiers == none && t.storage_class == none

/-- `TypeInfo(name=spelling)`: a `TypeInfo` with only the `name` field set and
every other field left at its dataclass default. -/
def TypeInfo.nameOnly (n : String) : TypeInfo :=
  .mk n none none none false none none false none none false none none false none
    none false none false

/-- Assignment `info.name = n` on a `TypeInfo` (used by the elaborated branch of
`extract_type_info`). -/
def TypeInfo.setName : TypeInfo → String → TypeInfo
  | .mk _ b q sc it ut pt ia asz ae ifn rt ar istr st sf sa ec ie, n =>
    .mk n b q sc it ut pt ia asz ae ifn rt ar istr st sf sa ec ie

/-- Assignment `info.is_elaborated = True` on a `TypeInfo`. -/
def TypeInfo.setElaborated : TypeInfo → TypeInfo
  | .mk n b q sc it ut pt ia asz ae ifn rt ar istr st sf sa ec _ =>
    .mk n b q sc it ut pt ia asz ae ifn rt ar istr st sf sa ec true

/-! ## Python string helpers -/

/-- Python `str.removeprefix`: drop `p` from the front of `s` when it is a
prefix, otherwise return `s` unchanged.  Implemented on the character list of
the string so that it evaluates by kernel reduction. -/
def removeprefix_py (s p : String) : String :=
  if p.data.isPrefixOf s.data then ⟨s.data.drop p.data.length⟩ else s

/-- Python `str.removesuffix`: drop a non-empty suffix `p` from the end of `s`
when present, otherwise return `s` unchanged. -/
def removesuffix_py (s p : String) : String :=
  if !p.data.isEmpty && p.data.isSuffixOf s.data then
    ⟨s.data.take (s.data.length - p.data.length)⟩
  else s

/-- Python `str.strip()` with no arguments: trim whitespace at both ends. -/
def strip_py (s : String) : String :=
  ⟨((s.data.dropWhile Char.isWhitespace).reverse.dropWhile Char.isWhitespace).reverse⟩

/-- Python `str.startswith`. -/
def startswith_py (s p : String) : Bool := p.data.isPrefixOf s.data

/-- Python `sub in s`: substring containment, by a sliding-window scan. -/
def contains_py (s sub : String) : Bool :=
  go s.data
where
  go : List Char → Bool
    | [] => sub.data.isPrefixOf []
    | c :: cs => sub.data.isPrefixOf (c :: cs) || go cs

/-- Python `str.strip(chars)` for a single character: remove every copy of `c`
from both ends of `s`. -/
def strip_char_py (s : String) (c : Char) : String :=
  ⟨((s.data.dropWhile (· == c)).reverse.dropWhile (· == c)).reverse⟩

/-- Python `str.splitlines` restricted to `\n` separators: split at newline
characters, without a trailing empty piece for a final newline. -/
def splitlines_py (s : String) : List String :=
  go s.data []
where
  go : List Char → List Char → List String
    | [], acc => if acc.isEmpty then [] else [⟨acc.reverse⟩]
    | c :: cs, acc =>
      if c == '\n' then ⟨acc.reverse⟩ :: go cs [] else go cs (c :: acc)

/-- Splitting a character list on runs of whitespace, right to left: a
non-whitespace character either starts a fresh word (when followed by
whitespace or the end) or extends the word in front of it. -/
def split_ws_chars : List Char → List (List Char)
  | [] => []
  | c :: cs =>
    let rest := split_ws_chars cs
    if c.isWhitespace then rest
    else
      match cs with
      | [] => [[c]]
      | c2 :: _ =>
        if c2.isWhitespace then [c] :: rest
        else
          match rest with
          | [] => [[c]]
          | w :: ws => (c :: w) :: ws

/-- Python `str.split()` with no arguments: split on runs of whitespace,
discarding empty pieces. -/
def split_ws_py (s : String) : List String :=
  (split_ws_chars s.data).map (fun l => ⟨l⟩)

/-- The numeric value of a decimal digit character, if it is one. -/
def digitVal (c : Char) : Option Nat :=
  if 48 ≤ c.toNat && c.toNat ≤ 57 then some (c.toNat - 48) else none

/-- Accumulate decimal digits into a natural number. -/
def digitsToNat : List Char → Nat → Option Nat
  | [], acc => some acc
  | c :: cs, acc =>
    match digitVal c with
    | none => none
    | some d => digitsToNat cs (acc * 10 + d)

/-- Python `int(s)` on a whitespace-free token: an optional sign followed by at
least one decimal digit, `None` for anything else. -/
def toInt_py (s : String) : Option Int :=
  match s.data with
  | '-' :: c :: cs => (digitsToNat (c :: cs) 0).map (fun n => -(n : Int))
  | '+' :: c :: cs => (digitsToNat (c :: cs) 0).map (fun n => (n : Int))
  | c :: cs => (digitsToNat (c :: cs) 0).map (fun n => (n : Int))
  | [] => none

/-! ## `type_utils.py` -/

/-!
`flattened` from `type_utils.py`: traverse the type tree, yielding all
types in pre-order; the generator is modelled as the list of yielded nodes.
The sub-helpers handle the `Option`/list structure of the child fields; an
absent (`None`) or empty child list contributes nothing, exactly as the
falsy checks in the source do.
-/
mutual
def flattened : TypeInfo → List TypeInfo
  | t@(.mk _ _ _ _ _ _ pt _ _ ae _ rt ar _ _ sf _ _ _) =>
    t :: (flattened_opt pt ++ flattened_opt ae ++ flattened_opt rt ++
      flattened_list_opt ar ++ flattened_fields_opt sf)

def flattened_opt : Option TypeInfo → List TypeInfo
  | none => []
  | some t => flattened t

def flattened_list_opt : Option (List TypeInfo) → List TypeInfo
  | none => []
  | some l => flattened_list l

def flattened_list : List TypeInfo → List TypeInfo
  | [] => []
  | t :: ts => flattened t ++ flattened_list ts

def flattened_fields_opt : Option (List StructField) → List TypeInfo
  | none => []
  | some l => flattened_fields l

def flattened_fields : List StructField → List TypeInfo
  | [] => []
  | f :: fs => flattened f.2 ++ flattened_fields fs
end

/-- The qualifier token string of `get_unqualified_type_name`, built in the
fixed order const, volatile, restrict and stripped. -/
def qualifier_coc (qs : List TypeQualifier) : String :=
  strip_py ((if qs.contains .CONST then "const " else "") ++
    (if qs.contains .VOLATILE then "volatile " else "") ++
    (if qs.contains .RESTRICT then "restrict " else ""))

/-- `get_unqualified_type_name` from `type_utils.py`. -/
def get_unqualified_type_name (type_info : TypeInfo) : String :=
  match type_info.qualifiers with
  | none => type_info.name
  | some qs =>
    let coc := qualifier_coc qs
    if type_info.is_pointer then strip_py (removesuffix_py type_info.name coc)
    else strip_py (removeprefix_py type_info.name coc)

/-! ## The type store and `add_to_type_store` (`function_extractor.py`) -/

/-- The type store `Dict[str, TypeInfo]`, modelled by its lookup function.
The claims under study depend only on key lookup, not on insertion order. -/
def TypeStore := String → Option TypeInfo

/-- The empty dictionary. -/
def TypeStore.empty : TypeStore := fun _ => none

/-- `store[k] = v`. -/
def TypeStore.insert (s : TypeStore) (k : String) (v : TypeInfo) : TypeStore :=
  fun k2 => if k2 = k then some v else s k2

/-- `type_info.struct_fields is not None and len(type_info.struct_fields) > 0`. -/
def fieldsFilled (t : TypeInfo) : Bool :=
  match t.struct_fields with
  | some (_ :: _) => true
  | _ => false

/-- `old_type_info.struct_fields is None or len(old_type_info.struct_fields) == 0`. -/
def fieldsMissing (t : TypeInfo) : Bool :=
  match t.struct_fields with
  | some (_ :: _) => false
  | _ => true

/-- The override condition of `add_to_type_store`: an incoming structural node
with a non-empty field list, against an existing entry whose field list is
`None` or empty. -/
def overrides (incoming old : TypeInfo) : Bool :=
  incoming.is_structural && fieldsFilled incoming && fieldsMissing old

/-!
`add_to_type_store` from `function_extractor.py`: insert the node if its
name is new, recurse into all child nodes, then apply the forward-declaration
override rule at the node's own name.  The helpers traverse the optional and
list-valued child fields in source order; an absent (`None`) child list is
traversed as the empty list, exactly as the falsy checks in the source do.
-/
mutual
def add_to_type_store : TypeStore → TypeInfo → TypeStore
  | type_store, t@(.mk _ _ _ _ _ _ pt _ _ ae _ rt ar _ _ sf _ _ _) =>
    let s1 := if (type_store t.name).isSome then type_store
              else type_store.insert t.name t
    let s2 := add_opt s1 pt
    let s3 := add_opt s2 ae
    let s4 := add_opt s3 rt
    let s5 := add_list_opt s4 ar
    let s6 := add_fields_opt s5 sf
    match s6 t.name with
    | none => s6
    | some old_type_info =>
      if overrides t old_type_info then s6.insert t.name t else s6

def add_opt : TypeStore → Option TypeInfo → TypeStore
  | s, none => s
  | s, some t => add_to_type_store s t

def add_list_opt : TypeStore → Option (List TypeInfo) → TypeStore
  | s, none => s
  | s, some l => add_list s l

def add_list : TypeStore → List TypeInfo → TypeStore
  | s, [] => s
  | s, t :: ts => add_list (add_to_type_store s t) ts

def add_fields_opt : TypeStore → Option (List StructField) → TypeStore
  | s, none => s
  | s, some l => add_fields s l

def add_fields : TypeStore → List StructField → TypeStore
  | s, [] => s
  | s, f :: fs => add_fields (add_to_type_store s f.2) fs
end

/-- The first step of `add_to_type_store`, as a named stage: insert the node
when its name is not yet a key. -/
def addStep1 (s : TypeStore) (t : TypeInfo) : TypeStore :=
  if (s t.name).isSome then s else s.insert t.name t

/-- The final step of `add_to_type_store`, as a named stage: the
forward-declaration override at the node's own name. -/
def addOverride (s6 : TypeStore) (t : TypeInfo) : TypeStore :=
  match s6 t.name with
  | none => s6
  | some old_type_info =>
    if overrides t old_type_info then s6.insert t.name t else s6

/-! ## Remaining dataclasses of `model.py` -/

/-- `Typedef` dataclass from `model.py`. -/
structure Typedef where
  name : String
  underlying_type : String
deriving DecidableEq, Repr

/-- `FunctionArg` dataclass from `model.py`. -/
structure FunctionArg where
  name : String
  type : String
deriving DecidableEq, Repr

/-- `Function` dataclass from `model.py`. -/
structure Function where
  name : String
  return_type : String
  arguments : List FunctionArg
deriving DecidableEq, Repr

/-- `Syscall` dataclass from `model.py`. -/
structure Syscall where
  name : String
  number : Int
  header_name : String
  function : Option Function
deriving DecidableEq, Repr

/-- `SyscallsContext` dataclass from `model.py`.  The `Dict[int, Syscall]` is
modelled as an insertion-ordered association list and the type store by its
lookup function. -/
structure SyscallsContext where
  syscalls : List (Int × Syscall)
  typedefs : List Typedef
  type_store : TypeStore

/-- `to_argument_name` from `model.py`.  Attribute accesses on `None`
(`array_element`, `return_type`, `arguments`) would raise in Python and are
modelled as `none`. -/
def to_argument_name (t : TypeInfo) (argument_name : String) : Option String :=
  if t.is_pointer then some (t.name ++ " " ++ argument_name)
  else if t.is_array then
    match t.array_element with
    | none => none
    | some el =>
      let arg_name := el.name ++ " " ++ argument_name
      match t.array_size with
      | some n => some (arg_name ++ "[" ++ toString n ++ "]")
      | none => some (arg_name ++ "[]")
  else if t.is_function then
    match t.return_type, t.arguments with
    | some rt, some args =>
      some (rt.name ++ " (*" ++ argument_name ++ ")(" ++
        String.intercalate ", " (args.map TypeInfo.name) ++ ")")
    | _, _ => none
  else some (t.name ++ " " ++ argument_name)

/-! ## Association-list dictionaries -/

/-- Lookup in an insertion-ordered dictionary. -/
def assocLookup {κ α : Type} [DecidableEq κ] : List (κ × α) → κ → Option α
  | [], _ => none
  | (k2, v) :: rest, k => if k2 = k then some v else assocLookup rest k

/-- `d[k] = v` on an insertion-ordered dictionary: replace in place when the
key is present, append otherwise. -/
def assocUpsert {κ α : Type} [DecidableEq κ] : List (κ × α) → κ → α → List (κ × α)
  | [], k, v => [(k, v)]
  | (k2, v2) :: rest, k, v =>
    if k2 = k then (k, v) :: rest else (k2, v2) :: assocUpsert rest k v

/-! ## `output_formatter.py`: candidate accumulation -/

/-- `type_added.enum_constants is not None and len(type_added.enum_constants) > 0`. -/
def enumConstantsFilled (t : TypeInfo) : Bool :=
  match t.enum_constants with
  | some (_ :: _) => true
  | _ => false

/-- The inner `check_and_add` of `get_types_to_add`: consider one flattened
candidate node against the accumulated `types_to_add` ordered dictionary
(whose key set is the `types_added` set of the source). -/
def check_and_add (flat_type : TypeInfo) (types_to_add : List (String × TypeInfo)) :
    List (String × TypeInfo) :=
  let flat_type_name := get_unqualified_type_name flat_type
  if flat_type.is_elaborated || flat_type.storage_class == some StorageClass.TYPEDEF then
    match assocLookup types_to_add flat_type_name with
    | some type_added =>
      if !type_added.is_structural then types_to_add
      else if type_added.struct_anonymous then types_to_add
      else if type_added.struct_type == some StructType.ENUM &&
          enumConstantsFilled type_added then types_to_add
      else if fieldsFilled type_added then types_to_add
      else assocUpsert types_to_add flat_type_name flat_type
    | none => assocUpsert types_to_add flat_type_name flat_type
  else types_to_add

/-- `sorted(syscalls_ctx.syscalls.items())`: sort the syscall table by its
integer key (keys are distinct in a dictionary, so the tuple comparison never
reaches the `Syscall` component). -/
def sortSyscalls (l : List (Int × Syscall)) : List (Int × Syscall) :=
  l.insertionSort (fun a b => a.1 ≤ b.1)

/-- The syscall-table sort key comparison is total. -/
instance : IsTotal (Int × Syscall) (fun a b => a.1 ≤ b.1) :=
  ⟨fun a b => Int.le_total a.1 b.1⟩

/-- The syscall-table sort key comparison is transitive. -/
instance : IsTrans (Int × Syscall) (fun a b => a.1 ≤ b.1) :=
  ⟨fun _ _ _ h1 h2 => le_trans h1 h2⟩

/-- Feed every node of `flattened(info)` in reversed order through
`check_and_add`. -/
def addFlattenedReversed (info : TypeInfo) (acc : List (String × TypeInfo)) :
    List (String × TypeInfo) :=
  ((flattened info).reverse).foldl (fun a t => check_and_add t a) acc

/-- The per-argument part of the `get_types_to_add` loop; a missing
`type_store` key raises `KeyError` in Python, modelled as `none`. -/
def gttaArgs (store : TypeStore) : List FunctionArg → List (String × TypeInfo) →
    Option (List (String × TypeInfo))
  | [], acc => some acc
  | arg :: rest, acc =>
    match store arg.type with
    | none => none
    | some arg_type_info => gttaArgs store rest (addFlattenedReversed arg_type_info acc)

/-- The per-syscall part of the `get_types_to_add` loop. -/
def gttaSyscalls (store : TypeStore) : List (Int × Syscall) → List (String × TypeInfo) →
    Option (List (String × TypeInfo))
  | [], acc => some acc
  | (_, syscall) :: rest, acc =>
    match syscall.function with
    | none => gttaSyscalls store rest acc
    | some func =>
      match store func.return_type with
      | none => none
      | some return_type_info =>
        match gttaArgs store func.arguments (addFlattenedReversed return_type_info acc) with
        | none => none
        | some acc2 => gttaSyscalls store rest acc2

/-- `get_types_to_add` from `output_formatter.py`: the ordered, deduplicated
candidate list of type nodes to emit, in insertion order (`.values()`). -/
def get_types_to_add (syscalls_ctx : SyscallsContext) : Option (List TypeInfo) :=
  (gttaSyscalls syscalls_ctx.type_store (sortSyscalls syscalls_ctx.syscalls) []).map
    (fun l => l.map Prod.snd)

/-! ## `output_formatter.py`: C declaration rendering -/

/-- `C_INDENT` from `output_formatter.py`. -/
def C_INDENT : String := "    "

/-- Python string interpolation of an `Optional[str]`: `None` prints as
`"None"`. -/
def pyStrOpt : Option String → String
  | none => "None"
  | some s => s

/-- Python string interpolation of an `Optional[int]`. -/
def pyIntOpt : Option Int → String
  | none => "None"
  | some n => toString n

/-- `struct_type.name.lower()`. -/
def structTypeLower : StructType → String
  | .STRUCT => "struct"
  | .UNION => "union"
  | .ENUM => "enum"

/-- `output_c_enum` from `output_formatter.py`. -/
def output_c_enum (enum_info : TypeInfo) : Option (List String) :=
  match enum_info.enum_constants with
  | none => none
  | some constants =>
    some (("enum " ++ pyStrOpt enum_info.base_type ++ " \x7b") ::
      (constants.map (fun c =>
        match c.value with
        | none => C_INDENT ++ c.name ++ ","
        | some v => C_INDENT ++ c.name ++ " = " ++ toString v ++ ",")) ++
      ["\x7d;"])

/-!
`output_c_struct` from `output_formatter.py`: render a struct/union body.
Nested non-elaborated or anonymous structural fields recurse with increased
indentation; for an anonymous member the closing brace line is rewritten to
carry the field name.  Attribute accesses and iterations over `None` raise in
Python and are modelled as `none`.
-/
mutual
def output_c_struct : TypeInfo → String → String → Option (List String)
  | struct_info@(.mk _ _ _ _ _ _ _ _ _ _ _ _ _ _ _ sf _ _ _), indent, no_indent =>
    match sf with
    | none => none
    | some fields =>
      let firstLine : Option String :=
        if struct_info.struct_anonymous then
          match struct_info.struct_type with
          | none => none
          | some st => some (no_indent ++ structTypeLower st ++ " \x7b")
        else some (no_indent ++ pyStrOpt struct_info.base_type ++ " \x7b")
      match firstLine with
      | none => none
      | some fl =>
        match output_c_struct_fields fields indent no_indent with
        | none => none
        | some body => some (fl :: body ++ [no_indent ++ "\x7d;"])

def output_c_struct_fields : List StructField → String → String → Option (List String)
  | [], _, _ => some []
  | field :: rest, indent, no_indent =>
    let fieldLines : Option (List String) :=
      if field.2.is_array then
        match field.2.array_element with
        | none => none
        | some el =>
          some [indent ++ get_unqualified_type_name el ++ " " ++ field.1 ++
            "[" ++ pyIntOpt field.2.array_size ++ "];"]
      else if field.2.is_structural && (!field.2.is_elaborated || field.2.struct_anonymous) then
        match output_c_struct field.2 (indent ++ C_INDENT) (no_indent ++ C_INDENT) with
        | none => none
        | some new_lines =>
          if field.2.struct_anonymous then
            some (new_lines.dropLast ++ [no_indent ++ C_INDENT ++ "\x7d " ++ field.1 ++ ";"])
          else some new_lines
      else if field.2.is_pointer && (match field.2.pointer_to with
          | some fn => fn.is_function
          | none => false) then
        match field.2.pointer_to with
        | none => none
        | some fn =>
          match fn.return_type, fn.arguments with
          | some rt, some args =>
            some [indent ++ rt.name ++ " (*" ++ field.1 ++ ")(" ++
              String.intercalate ", " (args.map TypeInfo.name) ++ ");"]
          | _, _ => none
      else
        some [indent ++ get_unqualified_type_name field.2 ++ " " ++ field.1 ++ ";"]
    match fieldLines with
    | none => none
    | some ls =>
      match output_c_struct_fields rest indent no_indent with
      | none => none
      | some more => some (ls ++ more)
end

/-- The typedef-line condition of the type-emission loop of
`format_output_header`: `is_basic_type() or is_pointer() or (is_typedef and
(underlying.is_basic_type() or underlying.is_pointer()))`, with the attribute
access on a `None` underlying type modelled as a `none` result. -/
def condTypedefLine (t : TypeInfo) : Option Bool :=
  if t.is_basic_type then some true
  else if t.is_pointer then some true
  else if t.is_typedef then
    match t.underlying_type with
    | none => none
    | some u => some (u.is_basic_type || u.is_pointer)
  else some false

/-- The type-emission loop of `format_output_header`: fold over the candidate
list, keeping the `types_added` name set, the typedef lines (appended to the
main line list) and the struct body lines (collected separately). -/
def types_loop : List TypeInfo → List String → List String → List String →
    Option (List String × List String)
  | [], _, tdl, stl => some (tdl, stl)
  | type_info :: rest, types_added, tdl, stl =>
    let unqualified_name := get_unqualified_type_name type_info
    if types_added.contains unqualified_name then
      types_loop rest types_added tdl stl
    else
      match condTypedefLine type_info with
      | none => none
      | some c1 =>
        if c1 then
          types_loop rest (types_added ++ [unqualified_name])
            (tdl ++ ["typedef " ++ pyStrOpt type_info.base_type ++ " " ++
              unqualified_name ++ ";"]) stl
        else if type_info.is_elaborated && type_info.is_structural then
          match type_info.struct_type with
          | none => none
          | some st =>
            let struct_kind := structTypeLower st
            if type_info.struct_anonymous then
              types_loop rest types_added tdl stl
            else if !startswith_py unqualified_name struct_kind then
              match (if type_info.struct_type == some StructType.ENUM then
                  output_c_enum type_info
                else output_c_struct type_info C_INDENT "") with
              | none => none
              | some new_struct_lines =>
                match new_struct_lines with
                | [] => none
                | first :: rest_lines =>
                  let first2 := if !startswith_py first struct_kind then
                      struct_kind ++ " " ++ first
                    else first
                  let first3 := "typedef " ++ first2
                  let all := first3 :: rest_lines
                  match all.getLast? with
                  | none => none
                  | some last =>
                    let last2 := strip_char_py last ';' ++ " " ++ unqualified_name ++ ";"
                    types_loop rest (types_added ++ [unqualified_name]) tdl
                      (stl ++ (all.dropLast ++ [last2]) ++ [""])
            else
              match output_c_struct type_info C_INDENT "" with
              | none => none
              | some nl =>
                types_loop rest (types_added ++ [unqualified_name]) tdl
                  (stl ++ nl ++ [""])
        else
          types_loop rest types_added tdl stl

/-- One line of the prototype section of `format_output_header`: a prototype
for a syscall with a matched function (with a `KeyError` on a missing argument
type modelled as `none`), a comment line otherwise. -/
def renderProtoLine (store : TypeStore) (p : Int × Syscall) : Option String :=
  match p.2.function with
  | some f =>
    match argsStr store f.arguments with
    | none => none
    | some s => some (f.return_type ++ " " ++ f.name ++ "(" ++ s ++ ");")
  | none =>
    some ("/* syscall " ++ p.2.name ++ " (#" ++ toString p.2.number ++
      ") - no function definition available */")
where
  argsStr (store : TypeStore) : List FunctionArg → Option String
    | [] => some ""
    | args =>
      match argPieces store args with
      | none => none
      | some pieces => some (String.intercalate ", " pieces)
  argPieces (store : TypeStore) : List FunctionArg → Option (List String)
    | [] => some []
    | arg :: rest =>
      match store arg.type with
      | none => none
      | some ti =>
        match to_argument_name ti arg.name with
        | none => none
        | some piece =>
          match argPieces store rest with
          | none => none
          | some more => some (piece :: more)

/-- The prototype section of `format_output_header`, over the syscall table in
ascending key order. -/
def protoLines (store : TypeStore) : List (Int × Syscall) → Option (List String)
  | [] => some []
  | p :: rest =>
    match renderProtoLine store p with
    | none => none
    | some l =>
      match protoLines store rest with
      | none => none
      | some more => some (l :: more)

/-- The fixed preamble lines of `format_output_header`. -/
def headerPreamble : List String :=
  ["/* Automatically generated syscall definitions */",
   "#ifndef _SYSCALL_NUMBERS_H",
   "#define _SYSCALL_NUMBERS_H",
   "",
   "#ifdef __cplusplus",
   "extern \"C\" \x7b",
   "#endif",
   "",
   "#ifndef restrict",
   "#define restrict __restrict",
   "#endif",
   ""]

/-- The fixed closing lines of `format_output_header`. -/
def headerOutro : List String :=
  ["",
   "#ifdef __cplusplus",
   "\x7d",
   "#endif",
   "",
   "#endif /* _SYSCALL_NUMBERS_H */"]

/-- `format_output_header` from `output_formatter.py`, as the list of emitted
lines (the source joins them with newlines at the end). -/
def format_output_header_lines (syscalls_ctx : SyscallsContext) :
    Option (List String) :=
  match get_types_to_add syscalls_ctx with
  | none => none
  | some types_to_add =>
    match types_loop types_to_add [] [] [] with
    | none => none
    | some (tdl, stl) =>
      match protoLines syscalls_ctx.type_store (sortSyscalls syscalls_ctx.syscalls) with
      | none => none
      | some protos =>
        some (headerPreamble ++ ["/* Type definitions */"] ++ tdl ++ [""] ++
          stl ++ [""] ++ ["/* Syscall function prototypes */"] ++ protos ++
          headerOutro)

/-- `format_output_header` joined to a single string. -/
def format_output_header (syscalls_ctx : SyscallsContext) : Option String :=
  (format_output_header_lines syscalls_ctx).map (String.intercalate "\n")

/-! ## `syscall_extractor.py` and `header_utils.py` -/

/-- The `SYSTEM_HEADERS` list from `syscall_extractor.py`. -/
def SYSTEM_HEADERS : List String :=
  ["unistd.h", "signal.h", "sys/wait.h", "sys/resource.h", "sys/times.h",
   "spawn.h", "pthread.h", "sched.h", "fcntl.h", "sys/stat.h", "sys/statvfs.h",
   "dirent.h", "ftw.h", "glob.h", "sys/select.h", "poll.h", "aio.h", "utime.h",
   "sys/mman.h", "sys/ipc.h", "sys/msg.h", "sys/sem.h", "sys/shm.h", "mqueue.h",
   "semaphore.h", "sys/socket.h", "netinet/in.h", "netinet/tcp.h",
   "arpa/inet.h", "net/if.h", "netdb.h", "sys/un.h", "sys/utsname.h",
   "sys/uio.h", "termios.h", "time.h", "sys/time.h", "pwd.h", "grp.h",
   "utmpx.h", "dlfcn.h", "fnmatch.h", "regex.h", "wordexp.h", "langinfo.h",
   "nl_types.h", "syslog.h"]

/-- The external-process boundary of one extraction run: `expand_macros` and
`expand` from `header_utils.py` (which run the C preprocessor and return
`None` on failure), and `extract_extern_functions` from
`function_extractor.py` applied to expanded header content (whose libclang
work is outside the modelled core; its per-header result dictionary of types
is given as an item list). -/
structure ExtractEnv where
  expand_macros : String → Option String
  expand : String → Option String
  extract_extern_functions :
    String → String → List Function × List Typedef × List (String × TypeInfo)

/-- Python falsiness of an `Optional[str]`: `None` or the empty string. -/
def pyFalsy : Option String → Bool
  | none => true
  | some s => s.data.isEmpty

/-- One line of `extract_syscall_numbers`: lines without `__NR_`, malformed
`#define` lines, non-`__NR_` macros and non-numeric values are skipped. -/
def extractNumberLine (acc : List (String × Int)) (line : String) :
    List (String × Int) :=
  if !contains_py line "__NR_" then acc
  else
    match split_ws_py line with
    | p0 :: p1 :: p2 :: _ =>
      if p0 = "#define" then
        if startswith_py p1 "__NR_" then
          let name : String := ⟨p1.data.drop "__NR_".data.length⟩
          match toInt_py p2 with
          | some v => assocUpsert acc name v
          | none => acc
        else acc
      else acc
    | _ => acc

/-- `extract_syscall_numbers` from `syscall_extractor.py`: scan the expanded
macro listing for `#define __NR_<name> <number>` lines. -/
def extract_syscall_numbers (expanded_content : String) : List (String × Int) :=
  (splitlines_py expanded_content).foldl extractNumberLine []

/-- `find_header_files` from `header_utils.py`: keep the headers for which
`expand_macros` does not return `None` (an empty expansion still counts as
found there). -/
def find_header_files (env : ExtractEnv) (headers_list : List String) : List String :=
  headers_list.filter (fun h => (env.expand_macros h).isSome)

/-- The mutable per-run accumulators of the header loop of `extract_syscalls`. -/
structure HeaderAcc where
  functions_by_name : List (String × (Function × String))
  typedefs_store : List (String × Typedef)
  type_store : TypeStore

/-- Merging one header's extraction results into the accumulators: functions
whose name is a syscall name are recorded with their header, typedefs are
keyed by name, and the per-header type dictionary is merged into the run-wide
store with `dict.update`, i.e. each item overwrites unconditionally. -/
def mergeHeaderResults (syscall_names : List String) (acc : HeaderAcc)
    (header : String)
    (res : List Function × List Typedef × List (String × TypeInfo)) : HeaderAcc :=
  { functions_by_name :=
      res.1.foldl (fun m func =>
        if syscall_names.contains func.name then
          assocUpsert m func.name (func, header)
        else m) acc.functions_by_name
    typedefs_store :=
      res.2.1.foldl (fun m td => assocUpsert m td.name td) acc.typedefs_store
    type_store :=
      res.2.2.foldl (fun s kv => s.insert kv.1 kv.2) acc.type_store }

/-- The header loop of `extract_syscalls`: a header whose expansion is falsy
(`None` or empty) is skipped and the run continues with the remaining
headers. -/
def process_headers (env : ExtractEnv) (syscall_names : List String) :
    List String → HeaderAcc → HeaderAcc
  | [], acc => acc
  | header :: rest, acc =>
    let header_content := env.expand header
    if pyFalsy header_content then process_headers env syscall_names rest acc
    else
      process_headers env syscall_names rest
        (mergeHeaderResults syscall_names acc header
          (env.extract_extern_functions (header_content.getD "") header))

/-- `syscalls[number].function = func; syscalls[number].header_name = header`. -/
def attachFunction (syscalls : List (Int × Syscall)) (number : Int)
    (func : Function) (header : String) : List (Int × Syscall) :=
  syscalls.map (fun p =>
    if p.1 = number then
      (p.1, { p.2 with function := some func, header_name := header })
    else p)

/-- Append an element to a list unless already present (the model of adding a
`Typedef` to the `typedefs_needed` set; the source set iterates in an
unspecified order, fixed here to first-insertion order). -/
def addNeeded (l : List Typedef) (td : Typedef) : List Typedef :=
  if l.contains td then l else l ++ [td]

/-- The matching loop of `extract_syscalls`: attach matched functions to their
syscalls and collect the typedefs needed by their argument and return types. -/
def matchFunctions (fbn : List (String × (Function × String)))
    (tds : List (String × Typedef)) :
    List (String × Int) → List (Int × Syscall) → List Typedef →
    List (Int × Syscall) × List Typedef
  | [], syscalls, needed => (syscalls, needed)
  | (name, number) :: rest, syscalls, needed =>
    match assocLookup fbn name with
    | none => matchFunctions fbn tds rest syscalls needed
    | some (func, header) =>
      let syscalls2 := attachFunction syscalls number func header
      let needed2 := func.arguments.foldl (fun n arg =>
        match assocLookup tds arg.type with
        | some td => addNeeded n td
        | none => n) needed
      let needed3 :=
        match assocLookup tds func.return_type with
        | some td => addNeeded needed2 td
        | none => needed2
      matchFunctions fbn tds rest syscalls2 needed3

/-- `extract_syscalls` from `syscall_extractor.py`.  The run aborts with
`RuntimeError` exactly when the macro expansion of `sys/syscall.h` is falsy;
afterwards every step is total. -/
def extract_syscalls (env : ExtractEnv) : Except String SyscallsContext :=
  let syscall_header := "sys/syscall.h"
  let expanded := env.expand_macros syscall_header
  if pyFalsy expanded then .error "Failed to extract syscall definitions"
  else
    let syscall_numbers := extract_syscall_numbers (expanded.getD "")
    let syscalls0 := syscall_numbers.foldl
      (fun m p => assocUpsert m p.2 ⟨p.1, p.2, syscall_header, none⟩) []
    let found_headers := find_header_files env SYSTEM_HEADERS
    let syscall_names := syscall_numbers.map Prod.fst
    let acc := process_headers env syscall_names found_headers
      ⟨[], [], TypeStore.empty⟩
    let (syscalls1, needed) := matchFunctions acc.functions_by_name
      acc.typedefs_store syscall_numbers syscalls0 []
    .ok ⟨syscalls1, needed, acc.type_store⟩

/-- Whether an `extract_syscalls` run aborted. -/
def runAborted (r : Except String SyscallsContext) : Bool :=
  match r with
  | .error _ => true
  | .ok _ => false

/-! ## `extract_type_info` (`function_extractor.py`)

The clang type descriptors consumed by `extract_type_info` are modelled by a
finite graph: a `CType` tree for the spelled structure, in which an
elaborated type refers to its canonical definition through an environment
keyed by spelling (this is what makes self-referential and mutually
referential aggregates expressible as finite data).  Each descriptor carries
the attributes the source reads from the clang API: spelling, kind, qualifier
flags, canonical spelling and kind-specific children.  The mutable
`processing_types` list is threaded explicitly, and the recursion is driven
by a depth fuel; `extractF` at sufficient fuel is the model of
`extract_type_info`.
-/

/-- The three qualifier flags of a clang type. -/
structure Quals where
  is_const : Bool
  is_volatile : Bool
  is_restrict : Bool
deriving DecidableEq, Repr

/-- No qualifiers. -/
def Quals.none : Quals := ⟨false, false, false⟩

/-- The cursor kind of a record declaration. -/
inductive RecordDeclKind
  | STRUCT_DECL
  | UNION_DECL
  | OTHER_DECL
deriving DecidableEq, Repr

/-- A clang type descriptor (see the section comment). -/
inductive CType where
  | pointer (spelling : String) (q : Quals) (canon : String) (pointee : CType)
  | elaborated (spelling : String) (q : Quals)
  | constArray (spelling : String) (q : Quals) (size : Int) (elem : CType)
  | incompleteArray (spelling : String) (q : Quals) (elem : CType)
  | functionProto (spelling : String) (q : Quals) (canon : String)
      (ret : CType) (args : List CType)
  | record (spelling : String) (q : Quals) (canon : String)
      (declKind : RecordDeclKind) (fields : List (String × CType))
  | enum (spelling : String) (q : Quals) (canon : String)
      (constants : List (String × Option Int))
  | typedef (spelling : String) (q : Quals) (underlying : CType)
  | basic (spelling : String) (q : Quals) (canon : String) (kindName : String)

/-- `clang_type.spelling`. -/
def CType.spelling : CType → String
  | .pointer s _ _ _ => s
  | .elaborated s _ => s
  | .constArray s _ _ _ => s
  | .incompleteArray s _ _ => s
  | .functionProto s _ _ _ _ => s
  | .record s _ _ _ _ => s
  | .enum s _ _ _ => s
  | .typedef s _ _ => s
  | .basic s _ _ _ => s

/-- `str(clang_type.kind)`. -/
def CType.kindStr : CType → String
  | .pointer _ _ _ _ => "TypeKind.POINTER"
  | .elaborated _ _ => "TypeKind.ELABORATED"
  | .constArray _ _ _ _ => "TypeKind.CONSTANTARRAY"
  | .incompleteArray _ _ _ => "TypeKind.INCOMPLETEARRAY"
  | .functionProto _ _ _ _ _ => "TypeKind.FUNCTIONPROTO"
  | .record _ _ _ _ _ => "TypeKind.RECORD"
  | .enum _ _ _ _ => "TypeKind.ENUM"
  | .typedef _ _ _ => "TypeKind.TYPEDEF"
  | .basic _ _ _ k => k

/-- `clang_type.kind == TypeKind.ELABORATED`. -/
def CType.isElaboratedKind : CType → Bool
  | .elaborated _ _ => true
  | _ => false

/-- The qualifier flags of a descriptor. -/
def CType.quals : CType → Quals
  | .pointer _ q _ _ => q
  | .elaborated _ q => q
  | .constArray _ q _ _ => q
  | .incompleteArray _ q _ => q
  | .functionProto _ q _ _ _ => q
  | .record _ q _ _ _ => q
  | .enum _ q _ _ => q
  | .typedef _ q _ => q
  | .basic _ q _ _ => q

/-- The environment giving each elaborated spelling its canonical
definition. -/
def CEnv := List (String × CType)

/-- `clang_type.get_canonical()` for an elaborated type: look its spelling up
in the environment (a spelling outside the modelled graph degrades to a basic
descriptor of the same spelling). -/
def envCanonical (env : CEnv) (s : String) : CType :=
  (assocLookup env s).getD (.basic s Quals.none s "TypeKind.UNEXPOSED")

/-- The stack entry `f"{clang_type.spelling + ' ' + str(clang_type.kind)}"`. -/
def stackEntry (t : CType) : String := t.spelling ++ " " ++ t.kindStr

/-- The stack entry of an elaborated type of spelling `s`. -/
def elabEntry (s : String) : String := s ++ " " ++ "TypeKind.ELABORATED"

/-- The number of environment keys whose elaborated stack entry is not yet on
the processing stack (the termination measure of the cycle guard). -/
def envKeysLeft (env : CEnv) (st : List String) : Nat :=
  ((env.map Prod.fst).filter (fun s => !st.contains (elabEntry s))).length

/-- The qualifier list built by `extract_type_info` (appended in the fixed
source order const, volatile, restrict). -/
def qualList (q : Quals) : List TypeQualifier :=
  (if q.is_const then [TypeQualifier.CONST] else []) ++
  (if q.is_volatile then [TypeQualifier.VOLATILE] else []) ++
  (if q.is_restrict then [TypeQualifier.RESTRICT] else [])

/-- The `coc` qualifier token string of `extract_type_info` (note the missing
trailing space after `restrict` in the source, removed anyway by the final
strip). -/
def cocOf (q : Quals) : String :=
  strip_py ((if q.is_const then "const " else "") ++
    (if q.is_volatile then "volatile " else "") ++
    (if q.is_restrict then "restrict" else ""))

/-- The stripped base name: the qualifier token string is removed from the
canonical spelling as a suffix for pointer kinds and as a prefix for all
others. -/
def baseNameOf (isPointerKind : Bool) (canon : String) (coc : String) : String :=
  if isPointerKind then strip_py (removesuffix_py canon coc)
  else strip_py (removeprefix_py canon coc)

/-! The anonymity test on a record spelling, from the source regular
expression

  `^(struct|union)(?:\s+|\s+\w+::|::)\(unnamed(?:\s+(struct|union))?\s+at\s+.*:\d+:\d+\)$`

implemented as a deterministic scanner over the character list (the pattern
admits no genuinely ambiguous backtracking). -/

/-- Drop an expected literal prefix. -/
def dropLit : List Char → List Char → Option (List Char)
  | [], l => some l
  | _, [] => Option.none
  | p :: ps, c :: cs => if p == c then dropLit ps cs else Option.none

/-- Require at least one whitespace character and consume the whole run. -/
def takeWs : List Char → Option (List Char)
  | [] => Option.none
  | c :: cs =>
    if c.isWhitespace then some ((c :: cs).dropWhile Char.isWhitespace)
    else Option.none

/-- A `\w` word character. -/
def isWordChar (c : Char) : Bool := c.isAlphanum || c == '_'

/-- A decimal digit. -/
def isDigitCh (c : Char) : Bool := (digitVal c).isSome

/-- The `:\d+:\d+\)$` tail of the anonymity pattern, checked from the end of
the remaining input (the preceding `.*` absorbs everything else). -/
def anonTail (l : List Char) : Bool :=
  match l.reverse with
  | ')' :: rest =>
    let d1 := rest.takeWhile isDigitCh
    let r1 := rest.dropWhile isDigitCh
    if d1.isEmpty then false
    else
      match r1 with
      | ':' :: r2 =>
        let d2 := r2.takeWhile isDigitCh
        let r3 := r2.dropWhile isDigitCh
        if d2.isEmpty then false
        else
          match r3 with
          | ':' :: _ => true
          | _ => false
      | _ => false
  | _ => false

/-- `at\s+.*:\d+:\d+\)$`. -/
def anonAt (l : List Char) : Bool :=
  match dropLit "at".data l with
  | Option.none => false
  | some r =>
    match takeWs r with
    | Option.none => false
    | some r2 => anonTail r2

/-- `(?:\s+(struct|union))?\s+at\s+...` after the literal `(unnamed`. -/
def anonAfterUnnamed (l : List Char) : Bool :=
  match takeWs l with
  | Option.none => false
  | some r =>
    match dropLit "struct".data r with
    | some r2 =>
      (match takeWs r2 with
       | some r3 => anonAt r3
       | Option.none => anonAt r)
    | Option.none =>
      match dropLit "union".data r with
      | some r2 =>
        (match takeWs r2 with
         | some r3 => anonAt r3
         | Option.none => anonAt r)
      | Option.none => anonAt r

/-- The separator `(?:\s+|\s+\w+::|::)` followed by `\(unnamed...`. -/
def anonSep (l : List Char) : Bool :=
  match dropLit "::".data l with
  | some r =>
    (match dropLit "(unnamed".data r with
     | some r2 => anonAfterUnnamed r2
     | Option.none => false)
  | Option.none =>
    match takeWs l with
    | Option.none => false
    | some r =>
      match dropLit "(unnamed".data r with
      | some r2 => anonAfterUnnamed r2
      | Option.none =>
        let w := r.takeWhile isWordChar
        let r2 := r.dropWhile isWordChar
        if w.isEmpty then false
        else
          match dropLit "::".data r2 with
          | Option.none => false
          | some r3 =>
            match dropLit "(unnamed".data r3 with
            | some r4 => anonAfterUnnamed r4
            | Option.none => false

/-- The full anonymity test `re.match(...) is not None` of the record branch
of `extract_type_info`. -/
def isAnonymousSpelling (s : String) : Bool :=
  match dropLit "struct".data s.data with
  | some r => anonSep r
  | Option.none =>
    match dropLit "union".data s.data with
    | some r => anonSep r
    | Option.none => false

/-!
`extract_type_info`, as `extractF`.  The first argument is the recursion
depth fuel: every branch of the source makes its recursive calls at depth one
less, and the termination claim is that some finite fuel always suffices.
The second component of the result is the `processing_types` list after the
call (the source mutates one shared list, so entries pushed by a sub-call
remain visible to every later call).
-/
mutual
def extractF : Nat → CEnv → List String → CType → Option (TypeInfo × List String)
  | 0, _, _, _ => Option.none
  | n + 1, env, processing_types, t =>
    let currently_processing := stackEntry t
    if processing_types.contains currently_processing && t.isElaboratedKind then
      some (TypeInfo.nameOnly t.spelling, processing_types)
    else
      let st := processing_types ++ [currently_processing]
      let qualifiers := qualList t.quals
      let coc := cocOf t.quals
      match t with
      | .pointer spelling _ canon pointee =>
        match extractF n env st pointee with
        | Option.none => Option.none
        | some (pointee_info, st2) =>
          some (.mk spelling (some (baseNameOf true canon coc))
            (some qualifiers) Option.none false Option.none (some pointee_info)
            false Option.none Option.none false Option.none Option.none false
            Option.none Option.none false Option.none false, st2)
      | .elaborated spelling _ =>
        match extractF n env st (envCanonical env spelling) with
        | Option.none => Option.none
        | some (underlying_info, st2) =>
          some ((underlying_info.setName spelling).setElaborated, st2)
      | .constArray spelling _ size elem =>
        match extractF n env st elem with
        | Option.none => Option.none
        | some (element_info, st2) =>
          some (.mk spelling (some (element_info.name ++ "[]"))
            (some qualifiers) Option.none false Option.none Option.none true
            (some size) (some element_info) false Option.none Option.none false
            Option.none Option.none false Option.none false, st2)
      | .incompleteArray spelling _ elem =>
        match extractF n env st elem with
        | Option.none => Option.none
        | some (element_info, st2) =>
          some (.mk spelling (some (element_info.name ++ "[]"))
            (some qualifiers) Option.none false Option.none Option.none true
            Option.none (some element_info) false Option.none Option.none false
            Option.none Option.none false Option.none false, st2)
      | .functionProto spelling _ canon ret args =>
        match extractF n env st ret with
        | Option.none => Option.none
        | some (return_type_info, st2) =>
          match extractListF n env st2 args with
          | Option.none => Option.none
          | some (arg_types, st3) =>
            some (.mk spelling (some (baseNameOf false canon coc))
              (some qualifiers) Option.none false Option.none Option.none false
              Option.none Option.none true (some return_type_info)
              (some arg_types) false Option.none Option.none false Option.none
              false, st3)
      | .record spelling _ canon declKind fields =>
        match extractFieldsF n env st fields with
        | Option.none => Option.none
        | some (field_infos, st2) =>
          let struct_type : Option StructType :=
            match declKind with
            | .STRUCT_DECL => some .STRUCT
            | .UNION_DECL => some .UNION
            | .OTHER_DECL => Option.none
          some (.mk spelling (some (baseNameOf false canon coc))
            (some qualifiers) Option.none false Option.none Option.none false
            Option.none Option.none false Option.none Option.none true
            struct_type (some field_infos) (isAnonymousSpelling spelling)
            Option.none false, st2)
      | .enum spelling _ canon constants =>
        some (.mk spelling (some (baseNameOf false canon coc))
          (some qualifiers) Option.none false Option.none Option.none false
          Option.none Option.none false Option.none Option.none true
          (some .ENUM) Option.none false
          (some (constants.map (fun c => ⟨c.1, c.2⟩))) false, st)
      | .typedef spelling _ underlying =>
        match extractF n env st underlying with
        | Option.none => Option.none
        | some (underlying_info0, st2) =>
          let underlying_info :=
            if underlying_info0.is_structural then underlying_info0.setElaborated
            else underlying_info0
          some (.mk spelling (some underlying.spelling) (some qualifiers)
            (some StorageClass.TYPEDEF) true (some underlying_info) Option.none
            false Option.none Option.none false Option.none Option.none false
            Option.none Option.none false Option.none false, st2)
      | .basic spelling _ canon _ =>
        some (.mk spelling (some (baseNameOf false canon coc))
          (some qualifiers) Option.none false Option.none Option.none false
          Option.none Option.none false Option.none Option.none false
          Option.none Option.none false Option.none false, st)

def extractListF : Nat → CEnv → List String → List CType →
    Option (List TypeInfo × List String)
  | 0, _, _, _ => Option.none
  | _ + 1, _, st, [] => some ([], st)
  | n + 1, env, st, t :: ts =>
    match extractF n env st t with
    | Option.none => Option.none
    | some (ti, st2) =>
      match extractListF n env st2 ts with
      | Option.none => Option.none
      | some (tis, st3) => some (ti :: tis, st3)

def extractFieldsF : Nat → CEnv → List String → List (String × CType) →
    Option (List StructField × List String)
  | 0, _, _, _ => Option.none
  | _ + 1, _, st, [] => some ([], st)
  | n + 1, env, st, f :: fs =>
    match extractF n env st f.2 with
    | Option.none => Option.none
    | some (field_info, st2) =>
      match extractFieldsF n env st2 fs with
      | Option.none => Option.none
      | some (fis, st3) => some ((f.1, field_info) :: fis, st3)
end

/-! ## Reachability along the five child-edge kinds

The reachability relation matching the traversal edges of `flattened` and
`add_to_type_store`: pointee, array element, return type, arguments and
struct-field types. -/

/-- `Reach t u`: `u` is reachable from `t` (reflexively) along the five child
edge kinds. -/
inductive Reach : TypeInfo → TypeInfo → Prop
  | refl (t : TypeInfo) : Reach t t
  | pointee {t p u : TypeInfo} : t.pointer_to = some p → Reach p u → Reach t u
  | element {t p u : TypeInfo} : t.array_element = some p → Reach p u → Reach t u
  | ret {t p u : TypeInfo} : t.return_type = some p → Reach p u → Reach t u
  | arg {t u : TypeInfo} {l : List TypeInfo} {p : TypeInfo} :
      t.arguments = some l → p ∈ l → Reach p u → Reach t u
  | field {t u : TypeInfo} {l : List StructField} {f : StructField} :
      t.struct_fields = some l → f ∈ l → Reach f.2 u → Reach t u

/-! ## Specification-side restatement for the qualifier-stripping claim -/

/-- The qualifier token string as the claim words it: the tokens present, in
the fixed order const, volatile, restrict, joined by single spaces. -/
def qualifier_tokens_spec (qs : List TypeQualifier) : String :=
  String.intercalate " "
    ((if qs.contains TypeQualifier.CONST then ["const"] else []) ++
     (if qs.contains TypeQualifier.VOLATILE then ["volatile"] else []) ++
     (if qs.contains TypeQualifier.RESTRICT then ["restrict"] else []))

/-- `get_unqualified_type_name` as the claim words it: with a `None` qualifier
list the name is returned unchanged; otherwise the token string is removed
from the name as a suffix for pointer nodes and as a prefix for every other
kind. -/
def unqualified_name_spec (t : TypeInfo) : String :=
  match t.qualifiers with
  | none => t.name
  | some qs =>
    if t.is_pointer then strip_py (removesuffix_py t.name (qualifier_tokens_spec qs))
    else strip_py (removeprefix_py t.name (qualifier_tokens_spec qs))

/-! ## Concrete fixtures for witnesses and counterexamples -/

/-- A name-only non-structural node. -/
def tyIntN : TypeInfo := TypeInfo.nameOnly "int"

/-- A forward declaration of `struct N`: structural, empty field list. -/
def c1fwd : TypeInfo :=
  .mk "struct N" (some "struct N") (some []) none false none none false none
    none false none none true (some .STRUCT) (some []) false none false

/-- A full definition of `struct N` with one `int` field. -/
def c1full : TypeInfo :=
  .mk "struct N" (some "struct N") (some []) none false none none false none
    none false none none true (some .STRUCT) (some [("f", tyIntN)]) false none
    false

/-- A second full definition of `struct N` (with a differently named field),
used as a same-name sub-node. -/
def c1inner : TypeInfo :=
  .mk "struct N" (some "struct N") (some []) none false none none false none
    none false none none true (some .STRUCT) (some [("g", tyIntN)]) false none
    false

/-- A full definition of `struct N` whose only field carries the same-name
full definition `c1inner` as its type. -/
def c1outer : TypeInfo :=
  .mk "struct N" (some "struct N") (some []) none false none none false none
    none false none none true (some .STRUCT) (some [("f", c1inner)]) false none
    false

/-- An extraction environment in which `unistd.h` yields a full definition of
`struct N` and `signal.h` afterwards yields only its forward declaration. -/
def c2env : ExtractEnv where
  expand_macros h :=
    if h = "sys/syscall.h" then some "#define __NR_read 0"
    else if h = "unistd.h" then some "m"
    else if h = "signal.h" then some "m"
    else none
  expand h :=
    if h = "unistd.h" then some "u"
    else if h = "signal.h" then some "s"
    else none
  extract_extern_functions _ header :=
    if header = "unistd.h" then ([], [], [("struct N", c1full)])
    else if header = "signal.h" then ([], [], [("struct N", c1fwd)])
    else ([], [], [])

/-- An environment whose `sys/syscall.h` macro expansion fails. -/
def c8bad : ExtractEnv where
  expand_macros _ := none
  expand _ := none
  extract_extern_functions _ _ := ([], [], [])

/-- A stored candidate entry: a forward-declared, non-anonymous struct. -/
def c5stored : TypeInfo :=
  .mk "S" (some "struct S") none none false none none false none none false
    none none true (some .STRUCT) (some []) false none false

/-- A candidate that adds no fields or constants: an elaborated,
non-structural node of the same unqualified name. -/
def c5cand : TypeInfo :=
  .mk "S" (some "int") none none false none none false none none false none
    none false none none false none true

/-- Basic `ssize_t` node for the header-rendering fixture. -/
def tySsize : TypeInfo :=
  .mk "ssize_t" (some "long") none none false none none false none none false
    none none false none none false none false

/-- Basic `int` node with a base type. -/
def tyIntC : TypeInfo :=
  .mk "int" (some "int") none none false none none false none none false none
    none false none none false none false

/-- Pointer node `void *`. -/
def tyVoidPtr : TypeInfo :=
  .mk "void *" (some "void *") none none false none (some (TypeInfo.nameOnly "void"))
    false none none false none none false none none false none false

/-- Basic `size_t` node. -/
def tySize : TypeInfo :=
  .mk "size_t" (some "unsigned long") none none false none none false none
    none false none none false none none false none false

/-- The matched `read` function of the end-to-end rendering scenario. -/
def readFn : Function :=
  ⟨"read", "ssize_t", [⟨"fd", "int"⟩, ⟨"buf", "void *"⟩, ⟨"count", "size_t"⟩]⟩

/-- The type store of the rendering fixture. -/
def storeRW : TypeStore := fun k =>
  if k = "ssize_t" then some tySsize
  else if k = "int" then some tyIntC
  else if k = "void *" then some tyVoidPtr
  else if k = "size_t" then some tySize
  else none

/-- The rendering fixture: syscall 0 `read` with a matched function, syscall 1
`write` without one, listed out of numeric order. -/
def ctxRW : SyscallsContext :=
  ⟨[(1, ⟨"write", 1, "sys/syscall.h", none⟩),
    (0, ⟨"read", 0, "unistd.h", some readFn⟩)], [], storeRW⟩

/-- The pointee reference `struct Foo` inside the self-referential record. -/
def fooPointee : CType := .elaborated "struct Foo" Quals.none

/-- The field type `struct Foo *` of the self-referential record. -/
def fooPtr : CType := .pointer "struct Foo *" Quals.none "struct Foo *" fooPointee

/-- The record descriptor `struct Foo { struct Foo *next; }`. -/
def fooRecord : CType :=
  .record "struct Foo" Quals.none "struct Foo" .STRUCT_DECL [("next", fooPtr)]

/-- The descriptor environment binding `struct Foo` to its definition. -/
def fooEnv : CEnv := [("struct Foo", fooRecord)]

/-- The elaborated reference `struct Foo` used as extraction entry point. -/
def fooElab : CType := .elaborated "struct Foo" Quals.none

/-! ## Basic lemmas: accessors, store operations -/

@[simp] theorem TypeInfo.name_mk (n : String) (b : Option String)
    (q : Option (List TypeQualifier)) (sc : Option StorageClass) (it : Bool)
    (ut pt : Option TypeInfo) (ia : Bool) (asz : Option Int)
    (ae : Option TypeInfo) (ifn : Bool) (rt : Option TypeInfo)
    (ar : Option (List TypeInfo)) (istr : Bool) (stt : Option StructType)
    (sf : Option (List StructField)) (sa : Bool)
    (ec : Option (List EnumConstant)) (ie : Bool) :
    (TypeInfo.mk n b q sc it ut pt ia asz ae ifn rt ar istr stt sf sa ec ie).name = n := rfl

@[simp] theorem TypeInfo.pointer_to_mk (n : String) (b : Option String)
    (q : Option (List TypeQualifier)) (sc : Option StorageClass) (it : Bool)
    (ut pt : Option TypeInfo) (ia : Bool) (asz : Option Int)
    (ae : Option TypeInfo) (ifn : Bool) (rt : Option TypeInfo)
    (ar : Option (List TypeInfo)) (istr : Bool) (stt : Option StructType)
    (sf : Option (List StructField)) (sa : Bool)
    (ec : Option (List EnumConstant)) (ie : Bool) :
    (TypeInfo.mk n b q sc it ut pt ia asz ae ifn rt ar istr stt sf sa ec ie).pointer_to = pt := rfl

@[simp] theorem TypeInfo.array_element_mk (n : String) (b : Option String)
    (q : Option (List TypeQualifier)) (sc : Option StorageClass) (it : Bool)
    (ut pt : Option TypeInfo) (ia : Bool) (asz : Option Int)
    (ae : Option TypeInfo) (ifn : Bool) (rt : Option TypeInfo)
    (ar : Option (List TypeInfo)) (istr : Bool) (stt : Option StructType)
    (sf : Option (List StructField)) (sa : Bool)
    (ec : Option (List EnumConstant)) (ie : Bool) :
    (TypeInfo.mk n b q sc it ut pt ia asz ae ifn rt ar istr stt sf sa ec ie).array_element = ae := rfl

@[simp] theorem TypeInfo.return_type_mk (n : String) (b : Option String)
    (q : Option (List TypeQualifier)) (sc : Option StorageClass) (it : Bool)
    (ut pt : Option TypeInfo) (ia : Bool) (asz : Option Int)
    (ae : Option TypeInfo) (ifn : Bool) (rt : Option TypeInfo)
    (ar : Option (List TypeInfo)) (istr : Bool) (stt : Option StructType)
    (sf : Option (List StructField)) (sa : Bool)
    (ec : Option (List EnumConstant)) (ie : Bool) :
    (TypeInfo.mk n b q sc it ut pt ia asz ae ifn rt ar istr stt sf sa ec ie).return_type = rt := rfl

@[simp] theorem TypeInfo.arguments_mk (n : String) (b : Option String)
    (q : Option (List TypeQualifier)) (sc : Option StorageClass) (it : Bool)
    (ut pt : Option TypeInfo) (ia : Bool) (asz : Option Int)
    (ae : Option TypeInfo) (ifn : Bool) (rt : Option TypeInfo)
    (ar : Option (List TypeInfo)) (istr : Bool) (stt : Option StructType)
    (sf : Option (List StructField)) (sa : Bool)
    (ec : Option (List EnumConstant)) (ie : Bool) :
    (TypeInfo.mk n b q sc it ut pt ia asz ae ifn rt ar istr stt sf sa ec ie).arguments = ar := rfl

@[simp] theorem TypeInfo.is_structural_mk (n : String) (b : Option String)
    (q : Option (List TypeQualifier)) (sc : Option StorageClass) (it : Bool)
    (ut pt : Option TypeInfo) (ia : Bool) (asz : Option Int)
    (ae : Option TypeInfo) (ifn : Bool) (rt : Option TypeInfo)
    (ar : Option (List TypeInfo)) (istr : Bool) (stt : Option StructType)
    (sf : Option (List StructField)) (sa : Bool)
    (ec : Option (List EnumConstant)) (ie : Bool) :
    (TypeInfo.mk n b q sc it ut pt ia asz ae ifn rt ar istr stt sf sa ec ie).is_structural = istr := rfl

@[simp] theorem TypeInfo.struct_fields_mk (n : String) (b : Option String)
    (q : Option (List TypeQualifier)) (sc : Option StorageClass) (it : Bool)
    (ut pt : Option TypeInfo) (ia : Bool) (asz : Option Int)
    (ae : Option TypeInfo) (ifn : Bool) (rt : Option TypeInfo)
    (ar : Option (List TypeInfo)) (istr : Bool) (stt : Option StructType)
    (sf : Option (List StructField)) (sa : Bool)
    (ec : Option (List EnumConstant)) (ie : Bool) :
    (TypeInfo.mk n b q sc it ut pt ia asz ae ifn rt ar istr stt sf sa ec ie).struct_fields = sf := rfl

/-- Lookup after `store[k] = v`. -/
theorem TypeStore.insert_apply (s : TypeStore) (k : String) (v : TypeInfo)
    (k2 : String) : (s.insert k v) k2 = if k2 = k then some v else s k2 := rfl

/-- A node with a non-empty field list is not field-missing. -/
theorem fieldsFilled_not_missing (v : TypeInfo) (h : fieldsFilled v = true) :
    fieldsMissing v = false := by
  rcases v with ⟨n, b, q, sc, it, ut, pt, ia, asz, ae, ifn, rt, ar, istr, stt, sf, sa, ec, ie⟩
  simp only [fieldsFilled, fieldsMissing] at *
  cases sf with
  | none => simp_all
  | some l => cases l <;> simp_all

/-- The first step of `add_to_type_store` (insert when the name is new) keeps
any existing entry. -/
theorem step1_keeps (s : TypeStore) (t : TypeInfo) (N : String) (v : TypeInfo)
    (hs : s N = some v) :
    (if (s t.name).isSome then s else s.insert t.name t) N = some v := by
  by_cases h : (s t.name).isSome
  · simp [h, hs]
  · simp only [h, if_false, Bool.false_eq_true, TypeStore.insert_apply]
    by_cases hN : N = t.name
    · subst hN
      rw [hs] at h
      simp at h
    · simp [hN, hs]

/-- The final override step of `add_to_type_store` keeps an entry with a
non-empty field list. -/
theorem override_keeps (s6 : TypeStore) (t : TypeInfo) (N : String)
    (v : TypeInfo) (hs : s6 N = some v) (hv : fieldsFilled v = true) :
    (match s6 t.name with
     | none => s6
     | some old => if overrides t old then s6.insert t.name t else s6) N = some v := by
  cases ho : s6 t.name with
  | none => simpa using hs
  | some old =>
    simp only
    by_cases hN : N = t.name
    · subst hN
      rw [hs] at ho
      injection ho with h
      subst h
      have : overrides t v = false := by
        simp [overrides, fieldsFilled_not_missing v hv]
      simp [this, hs]
    · by_cases hov : overrides t old
      · simp [hov, TypeStore.insert_apply, hN, hs]
      · simp [hov, hs]

/-! The persistence lemma: an entry with a non-empty struct field list is never
replaced by `add_to_type_store` or any of its helpers. -/
mutual
theorem add_keeps_filled (s : TypeStore) (t : TypeInfo) (N : String)
    (v : TypeInfo) (hs : s N = some v) (hv : fieldsFilled v = true) :
    add_to_type_store s t N = some v := by
  rcases t with ⟨n, b, q, sc, it, ut, pt, ia, asz, ae, ifn, rt, ar, istr, stt, sf, sa, ec, ie⟩
  have h1 := step1_keeps s
    (.mk n b q sc it ut pt ia asz ae ifn rt ar istr stt sf sa ec ie) N v hs
  have h2 := add_opt_keeps_filled _ pt N v h1 hv
  have h3 := add_opt_keeps_filled _ ae N v h2 hv
  have h4 := add_opt_keeps_filled _ rt N v h3 hv
  have h5 := add_list_opt_keeps_filled _ ar N v h4 hv
  have h6 := add_fields_opt_keeps_filled _ sf N v h5 hv
  have h7 := override_keeps _
    (.mk n b q sc it ut pt ia asz ae ifn rt ar istr stt sf sa ec ie) N v h6 hv
  simpa only [add_to_type_store] using h7
termination_by structural t

theorem add_opt_keeps_filled (s : TypeStore) (o : Option TypeInfo) (N : String)
    (v : TypeInfo) (hs : s N = some v) (hv : fieldsFilled v = true) :
    add_opt s o N = some v := by
  cases o with
  | none => exact hs
  | some t => exact add_keeps_filled s t N v hs hv
termination_by structural o

theorem add_list_opt_keeps_filled (s : TypeStore) (o : Option (List TypeInfo))
    (N : String) (v : TypeInfo) (hs : s N = some v)
    (hv : fieldsFilled v = true) : add_list_opt s o N = some v := by
  cases o with
  | none => exact hs
  | some l => exact add_list_keeps_filled s l N v hs hv
termination_by structural o

theorem add_list_keeps_filled (s : TypeStore) (l : List TypeInfo) (N : String)
    (v : TypeInfo) (hs : s N = some v) (hv : fieldsFilled v = true) :
    add_list s l N = some v := by
  cases l with
  | nil => exact hs
  | cons t ts =>
    exact add_list_keeps_filled (add_to_type_store s t) ts N v
      (add_keeps_filled s t N v hs hv) hv
termination_by structural l

theorem add_fields_opt_keeps_filled (s : TypeStore)
    (o : Option (List StructField)) (N : String) (v : TypeInfo)
    (hs : s N = some v) (hv : fieldsFilled v = true) :
    add_fields_opt s o N = some v := by
  cases o with
  | none => exact hs
  | some l => exact add_fields_keeps_filled s l N v hs hv
termination_by structural o

theorem add_fields_keeps_filled (s : TypeStore) (l : List StructField)
    (N : String) (v : TypeInfo) (hs : s N = some v)
    (hv : fieldsFilled v = true) : add_fields s l N = some v := by
  cases l with
  | nil => exact hs
  | cons f fs =>
    exact add_fields_keeps_filled (add_to_type_store s f.2) fs N v
      (add_keeps_filled s f.2 N v hs hv) hv
termination_by structural l
end

/-- The first step of `add_to_type_store` never removes a key. -/
theorem step1_isSome (s : TypeStore) (t : TypeInfo) (N : String)
    (hs : (s N).isSome = true) :
    ((if (s t.name).isSome then s else s.insert t.name t) N).isSome = true := by
  by_cases h : (s t.name).isSome
  · simpa [h] using hs
  · simp only [h, if_false, Bool.false_eq_true, TypeStore.insert_apply]
    by_cases hN : N = t.name
    · simp [hN]
    · simpa [hN] using hs

/-- The first step of `add_to_type_store` makes the node's own name present. -/
theorem step1_self (s : TypeStore) (t : TypeInfo) :
    ((if (s t.name).isSome then s else s.insert t.name t) t.name).isSome = true := by
  by_cases h : (s t.name).isSome
  · simp [h]
  · simp [h, TypeStore.insert_apply]

/-- The final override step of `add_to_type_store` never removes a key. -/
theorem override_isSome (s6 : TypeStore) (t : TypeInfo) (N : String)
    (hs : (s6 N).isSome = true) :
    (((match s6 t.name with
       | none => s6
       | some old => if overrides t old then s6.insert t.name t else s6) : TypeStore) N).isSome
      = true := by
  cases ho : s6 t.name with
  | none => simpa using hs
  | some old =>
    simp only
    by_cases hov : overrides t old
    · simp only [hov, if_true, TypeStore.insert_apply]
      by_cases hN : N = t.name
      · simp [hN]
      · simpa [hN] using hs
    · simpa [hov] using hs

/-! Keys already in the store survive every helper of `add_to_type_store`. -/
mutual
theorem add_isSome (s : TypeStore) (t : TypeInfo) (N : String)
    (hs : (s N).isSome = true) : (add_to_type_store s t N).isSome = true := by
  rcases t with ⟨n, b, q, sc, it, ut, pt, ia, asz, ae, ifn, rt, ar, istr, stt, sf, sa, ec, ie⟩
  have h1 := step1_isSome s
    (.mk n b q sc it ut pt ia asz ae ifn rt ar istr stt sf sa ec ie) N hs
  have h2 := add_opt_isSome _ pt N h1
  have h3 := add_opt_isSome _ ae N h2
  have h4 := add_opt_isSome _ rt N h3
  have h5 := add_list_opt_isSome _ ar N h4
  have h6 := add_fields_opt_isSome _ sf N h5
  have h7 := override_isSome _
    (.mk n b q sc it ut pt ia asz ae ifn rt ar istr stt sf sa ec ie) N h6
  simpa only [add_to_type_store] using h7
termination_by structural t

theorem add_opt_isSome (s : TypeStore) (o : Option TypeInfo) (N : String)
    (hs : (s N).isSome = true) : (add_opt s o N).isSome = true := by
  cases o with
  | none => exact hs
  | some t => exact add_isSome s t N hs
termination_by structural o

theorem add_list_opt_isSome (s : TypeStore) (o : Option (List TypeInfo))
    (N : String) (hs : (s N).isSome = true) :
    (add_list_opt s o N).isSome = true := by
  cases o with
  | none => exact hs
  | some l => exact add_list_isSome s l N hs
termination_by structural o

theorem add_list_isSome (s : TypeStore) (l : List TypeInfo) (N : String)
    (hs : (s N).isSome = true) : (add_list s l N).isSome = true := by
  cases l with
  | nil => exact hs
  | cons t ts => exact add_list_isSome (add_to_type_store s t) ts N (add_isSome s t N hs)
termination_by structural l

theorem add_fields_opt_isSome (s : TypeStore) (o : Option (List StructField))
    (N : String) (hs : (s N).isSome = true) :
    (add_fields_opt s o N).isSome = true := by
  cases o with
  | none => exact hs
  | some l => exact add_fields_isSome s l N hs
termination_by structural o

theorem add_fields_isSome (s : TypeStore) (l : List StructField) (N : String)
    (hs : (s N).isSome = true) : (add_fields s l N).isSome = true := by
  cases l with
  | nil => exact hs
  | cons f fs =>
    exact add_fields_isSome (add_to_type_store s f.2) fs N (add_isSome s f.2 N hs)
termination_by structural l
end

/-- Unfolding equation for `flattened` on a constructed node. -/
theorem flattened_def (n : String) (b : Option String)
    (q : Option (List TypeQualifier)) (sc : Option StorageClass) (it : Bool)
    (ut pt : Option TypeInfo) (ia : Bool) (asz : Option Int)
    (ae : Option TypeInfo) (ifn : Bool) (rt : Option TypeInfo)
    (ar : Option (List TypeInfo)) (istr : Bool) (stt : Option StructType)
    (sf : Option (List StructField)) (sa : Bool)
    (ec : Option (List EnumConstant)) (ie : Bool) :
    flattened (.mk n b q sc it ut pt ia asz ae ifn rt ar istr stt sf sa ec ie) =
      .mk n b q sc it ut pt ia asz ae ifn rt ar istr stt sf sa ec ie ::
        (flattened_opt pt ++ flattened_opt ae ++ flattened_opt rt ++
          flattened_list_opt ar ++ flattened_fields_opt sf) := by
  simp [flattened]

/-- `add_to_type_store` as the composition of its named stages. -/
theorem add_unfold (s : TypeStore) (n : String) (b : Option String)
    (q : Option (List TypeQualifier)) (sc : Option StorageClass) (it : Bool)
    (ut pt : Option TypeInfo) (ia : Bool) (asz : Option Int)
    (ae : Option TypeInfo) (ifn : Bool) (rt : Option TypeInfo)
    (ar : Option (List TypeInfo)) (istr : Bool) (stt : Option StructType)
    (sf : Option (List StructField)) (sa : Bool)
    (ec : Option (List EnumConstant)) (ie : Bool) :
    add_to_type_store s (.mk n b q sc it ut pt ia asz ae ifn rt ar istr stt sf sa ec ie) =
      addOverride
        (add_fields_opt
          (add_list_opt
            (add_opt
              (add_opt
                (add_opt
                  (addStep1 s (.mk n b q sc it ut pt ia asz ae ifn rt ar istr stt sf sa ec ie))
                  pt) ae) rt) ar) sf)
        (.mk n b q sc it ut pt ia asz ae ifn rt ar istr stt sf sa ec ie) := by
  simp only [add_to_type_store, addStep1, addOverride]

/-- `addStep1` keeps any existing key. -/
theorem addStep1_isSome (s : TypeStore) (t : TypeInfo) (N : String)
    (hs : (s N).isSome = true) : (addStep1 s t N).isSome = true :=
  step1_isSome s t N hs

/-- `addStep1` makes the node's own name a key. -/
theorem addStep1_self (s : TypeStore) (t : TypeInfo) :
    (addStep1 s t t.name).isSome = true :=
  step1_self s t

/-- `addOverride` keeps any existing key. -/
theorem addOverride_isSome (s6 : TypeStore) (t : TypeInfo) (N : String)
    (hs : (s6 N).isSome = true) : (addOverride s6 t N).isSome = true :=
  override_isSome s6 t N hs

/-! Every name reachable through `flattened` is a key after the store
insertion (the main content of the sub-node registration claim). -/
mutual
theorem add_flat_isSome (s : TypeStore) (t : TypeInfo) (u : TypeInfo)
    (hu : u ∈ flattened t) : (add_to_type_store s t u.name).isSome = true := by
  rcases t with ⟨n, b, q, sc, it, ut, pt, ia, asz, ae, ifn, rt, ar, istr, stt, sf, sa, ec, ie⟩
  rw [flattened_def] at hu
  rw [add_unfold]
  apply addOverride_isSome
  rcases List.mem_cons.mp hu with hu | hu
  · apply add_fields_opt_isSome
    apply add_list_opt_isSome
    apply add_opt_isSome
    apply add_opt_isSome
    apply add_opt_isSome
    subst hu
    exact addStep1_self s _
  · simp only [List.mem_append] at hu
    rcases hu with (((hu | hu) | hu) | hu) | hu
    · apply add_fields_opt_isSome
      apply add_list_opt_isSome
      apply add_opt_isSome
      apply add_opt_isSome
      exact add_opt_flat_isSome _ pt u hu
    · apply add_fields_opt_isSome
      apply add_list_opt_isSome
      apply add_opt_isSome
      exact add_opt_flat_isSome _ ae u hu
    · apply add_fields_opt_isSome
      apply add_list_opt_isSome
      exact add_opt_flat_isSome _ rt u hu
    · apply add_fields_opt_isSome
      exact add_list_opt_flat_isSome _ ar u hu
    · exact add_fields_opt_flat_isSome _ sf u hu
termination_by structural t

theorem add_opt_flat_isSome (s : TypeStore) (o : Option TypeInfo) (u : TypeInfo)
    (hu : u ∈ flattened_opt o) : (add_opt s o u.name).isSome = true := by
  cases o with
  | none => simp [flattened_opt] at hu
  | some t => exact add_flat_isSome s t u (by simpa [flattened_opt] using hu)
termination_by structural o

theorem add_list_opt_flat_isSome (s : TypeStore) (o : Option (List TypeInfo))
    (u : TypeInfo) (hu : u ∈ flattened_list_opt o) :
    (add_list_opt s o u.name).isSome = true := by
  cases o with
  | none => simp [flattened_list_opt] at hu
  | some l => exact add_list_flat_isSome s l u (by simpa [flattened_list_opt] using hu)
termination_by structural o

theorem add_list_flat_isSome (s : TypeStore) (l : List TypeInfo) (u : TypeInfo)
    (hu : u ∈ flattened_list l) : (add_list s l u.name).isSome = true := by
  cases l with
  | nil => simp [flattened_list] at hu
  | cons t ts =>
    rw [show flattened_list (t :: ts) = flattened t ++ flattened_list ts from by
      simp [flattened_list]] at hu
    rcases List.mem_append.mp hu with hu | hu
    · exact add_list_isSome _ ts _ (add_flat_isSome s t u hu)
    · exact add_list_flat_isSome (add_to_type_store s t) ts u hu
termination_by structural l

theorem add_fields_opt_flat_isSome (s : TypeStore) (o : Option (List StructField))
    (u : TypeInfo) (hu : u ∈ flattened_fields_opt o) :
    (add_fields_opt s o u.name).isSome = true := by
  cases o with
  | none => simp [flattened_fields_opt] at hu
  | some l => exact add_fields_flat_isSome s l u (by simpa [flattened_fields_opt] using hu)
termination_by structural o

theorem add_fields_flat_isSome (s : TypeStore) (l : List StructField)
    (u : TypeInfo) (hu : u ∈ flattened_fields l) :
    (add_fields s l u.name).isSome = true := by
  cases l with
  | nil => simp [flattened_fields] at hu
  | cons f fs =>
    rw [show flattened_fields (f :: fs) = flattened f.2 ++ flattened_fields fs from by
      simp [flattened_fields]] at hu
    rcases List.mem_append.mp hu with hu | hu
    · exact add_fields_isSome _ fs _ (add_flat_isSome s f.2 u hu)
    · exact add_fields_flat_isSome (add_to_type_store s f.2) fs u hu
termination_by structural l
end

/-- `fieldsMissing` is the negation of `fieldsFilled`. -/
theorem fieldsMissing_eq (v : TypeInfo) : fieldsMissing v = !fieldsFilled v := by
  rcases v with ⟨n, b, q, sc, it, ut, pt, ia, asz, ae, ifn, rt, ar, istr, stt, sf, sa, ec, ie⟩
  simp only [fieldsFilled, fieldsMissing]
  cases sf with
  | none => simp
  | some l => cases l <;> simp

/-- `addStep1` keeps the value of any existing key. -/
theorem addStep1_keeps (s : TypeStore) (t : TypeInfo) (N : String)
    (v : TypeInfo) (hs : s N = some v) : addStep1 s t N = some v :=
  step1_keeps s t N v hs

/-- `addOverride` keeps an entry that the node cannot override. -/
theorem addOverride_keeps_of (s6 : TypeStore) (t : TypeInfo) (N : String)
    (w : TypeInfo) (hs : s6 N = some w)
    (h : t.name = N → overrides t w = false) : addOverride s6 t N = some w := by
  unfold addOverride
  cases ho : s6 t.name with
  | none => exact hs
  | some old =>
    by_cases hN : t.name = N
    · rw [hN] at ho
      rw [hs] at ho
      injection ho with hw
      subst hw
      simp [h hN, hs]
    · by_cases hov : overrides t old
      · simp only [hov, if_true, TypeStore.insert_apply]
        rw [if_neg (fun hc => hN hc.symm)]
        exact hs
      · simp [hov, hs]

/-- `addOverride` keeps an entry with a non-empty field list. -/
theorem addOverride_keeps_filled (s6 : TypeStore) (t : TypeInfo) (N : String)
    (v : TypeInfo) (hs : s6 N = some v) (hv : fieldsFilled v = true) :
    addOverride s6 t N = some v := by
  apply addOverride_keeps_of s6 t N v hs
  intro _
  simp [overrides, fieldsFilled_not_missing v hv]

/-! Membership of a child's flattening in the parent's flattening. -/

theorem mem_flattened_of_pt {n : String} {b : Option String}
    {q : Option (List TypeQualifier)} {sc : Option StorageClass} {it : Bool}
    {ut pt : Option TypeInfo} {ia : Bool} {asz : Option Int}
    {ae : Option TypeInfo} {ifn : Bool} {rt : Option TypeInfo}
    {ar : Option (List TypeInfo)} {istr : Bool} {stt : Option StructType}
    {sf : Option (List StructField)} {sa : Bool}
    {ec : Option (List EnumConstant)} {ie : Bool} {u : TypeInfo}
    (hu : u ∈ flattened_opt pt) :
    u ∈ flattened (.mk n b q sc it ut pt ia asz ae ifn rt ar istr stt sf sa ec ie) := by
  rw [flattened_def]
  exact List.mem_cons_of_mem _ (by simp only [List.mem_append]; tauto)

theorem mem_flattened_of_ae {n : String} {b : Option String}
    {q : Option (List TypeQualifier)} {sc : Option StorageClass} {it : Bool}
    {ut pt : Option TypeInfo} {ia : Bool} {asz : Option Int}
    {ae : Option TypeInfo} {ifn : Bool} {rt : Option TypeInfo}
    {ar : Option (List TypeInfo)} {istr : Bool} {stt : Option StructType}
    {sf : Option (List StructField)} {sa : Bool}
    {ec : Option (List EnumConstant)} {ie : Bool} {u : TypeInfo}
    (hu : u ∈ flattened_opt ae) :
    u ∈ flattened (.mk n b q sc it ut pt ia asz ae ifn rt ar istr stt sf sa ec ie) := by
  rw [flattened_def]
  exact List.mem_cons_of_mem _ (by simp only [List.mem_append]; tauto)

theorem mem_flattened_of_rt {n : String} {b : Option String}
    {q : Option (List TypeQualifier)} {sc : Option StorageClass} {it : Bool}
    {ut pt : Option TypeInfo} {ia : Bool} {asz : Option Int}
    {ae : Option TypeInfo} {ifn : Bool} {rt : Option TypeInfo}
    {ar : Option (List TypeInfo)} {istr : Bool} {stt : Option StructType}
    {sf : Option (List StructField)} {sa : Bool}
    {ec : Option (List EnumConstant)} {ie : Bool} {u : TypeInfo}
    (hu : u ∈ flattened_opt rt) :
    u ∈ flattened (.mk n b q sc it ut pt ia asz ae ifn rt ar istr stt sf sa ec ie) := by
  rw [flattened_def]
  exact List.mem_cons_of_mem _ (by simp only [List.mem_append]; tauto)

theorem mem_flattened_of_ar {n : String} {b : Option String}
    {q : Option (List TypeQualifier)} {sc : Option StorageClass} {it : Bool}
    {ut pt : Option TypeInfo} {ia : Bool} {asz : Option Int}
    {ae : Option TypeInfo} {ifn : Bool} {rt : Option TypeInfo}
    {ar : Option (List TypeInfo)} {istr : Bool} {stt : Option StructType}
    {sf : Option (List StructField)} {sa : Bool}
    {ec : Option (List EnumConstant)} {ie : Bool} {u : TypeInfo}
    (hu : u ∈ flattened_list_opt ar) :
    u ∈ flattened (.mk n b q sc it ut pt ia asz ae ifn rt ar istr stt sf sa ec ie) := by
  rw [flattened_def]
  exact List.mem_cons_of_mem _ (by simp only [List.mem_append]; tauto)

theorem mem_flattened_of_sf {n : String} {b : Option String}
    {q : Option (List TypeQualifier)} {sc : Option StorageClass} {it : Bool}
    {ut pt : Option TypeInfo} {ia : Bool} {asz : Option Int}
    {ae : Option TypeInfo} {ifn : Bool} {rt : Option TypeInfo}
    {ar : Option (List TypeInfo)} {istr : Bool} {stt : Option StructType}
    {sf : Option (List StructField)} {sa : Bool}
    {ec : Option (List EnumConstant)} {ie : Bool} {u : TypeInfo}
    (hu : u ∈ flattened_fields_opt sf) :
    u ∈ flattened (.mk n b q sc it ut pt ia asz ae ifn rt ar istr stt sf sa ec ie) := by
  rw [flattened_def]
  exact List.mem_cons_of_mem _ (by simp only [List.mem_append]; tauto)

/-! The no-write lemma: when no node of the flattening can win the override at
key `N`, the value stored at an already-present `N` is untouched. -/
mutual
theorem add_no_write (s : TypeStore) (t : TypeInfo) (N : String) (w : TypeInfo)
    (hs : s N = some w)
    (hns : ∀ u ∈ flattened t, ¬(u.name = N ∧ u.is_structural = true ∧ fieldsFilled u = true)) :
    add_to_type_store s t N = some w := by
  rcases t with ⟨n, b, q, sc, it, ut, pt, ia, asz, ae, ifn, rt, ar, istr, stt, sf, sa, ec, ie⟩
  rw [add_unfold]
  have h1 := addStep1_keeps s
    (.mk n b q sc it ut pt ia asz ae ifn rt ar istr stt sf sa ec ie) N w hs
  have h2 := add_opt_no_write _ pt N w h1
    (fun u hu => hns u (mem_flattened_of_pt hu))
  have h3 := add_opt_no_write _ ae N w h2
    (fun u hu => hns u (mem_flattened_of_ae hu))
  have h4 := add_opt_no_write _ rt N w h3
    (fun u hu => hns u (mem_flattened_of_rt hu))
  have h5 := add_list_opt_no_write _ ar N w h4
    (fun u hu => hns u (mem_flattened_of_ar hu))
  have h6 := add_fields_opt_no_write _ sf N w h5
    (fun u hu => hns u (mem_flattened_of_sf hu))
  apply addOverride_keeps_of _ _ N w h6
  intro hname
  have hself := hns (.mk n b q sc it ut pt ia asz ae ifn rt ar istr stt sf sa ec ie)
    (by rw [flattened_def]; exact List.mem_cons_self _ _)
  by_cases hstr : istr = true
  · by_cases hfil :
      fieldsFilled (.mk n b q sc it ut pt ia asz ae ifn rt ar istr stt sf sa ec ie) = true
    · exact absurd ⟨hname, by simpa using hstr, hfil⟩ hself
    · simp only [Bool.not_eq_true] at hfil
      simp [overrides, hfil]
  · simp only [Bool.not_eq_true] at hstr
    simp [overrides, hstr]
termination_by structural t

theorem add_opt_no_write (s : TypeStore) (o : Option TypeInfo) (N : String)
    (w : TypeInfo) (hs : s N = some w)
    (hns : ∀ u ∈ flattened_opt o, ¬(u.name = N ∧ u.is_structural = true ∧ fieldsFilled u = true)) :
    add_opt s o N = some w := by
  cases o with
  | none => exact hs
  | some t => exact add_no_write s t N w hs (by simpa [flattened_opt] using hns)
termination_by structural o

theorem add_list_opt_no_write (s : TypeStore) (o : Option (List TypeInfo))
    (N : String) (w : TypeInfo) (hs : s N = some w)
    (hns : ∀ u ∈ flattened_list_opt o, ¬(u.name = N ∧ u.is_structural = true ∧ fieldsFilled u = true)) :
    add_list_opt s o N = some w := by
  cases o with
  | none => exact hs
  | some l => exact add_list_no_write s l N w hs (by simpa [flattened_list_opt] using hns)
termination_by structural o

theorem add_list_no_write (s : TypeStore) (l : List TypeInfo) (N : String)
    (w : TypeInfo) (hs : s N = some w)
    (hns : ∀ u ∈ flattened_list l, ¬(u.name = N ∧ u.is_structural = true ∧ fieldsFilled u = true)) :
    add_list s l N = some w := by
  cases l with
  | nil => exact hs
  | cons t ts =>
    rw [show flattened_list (t :: ts) = flattened t ++ flattened_list ts from by
      simp [flattened_list]] at hns
    exact add_list_no_write (add_to_type_store s t) ts N w
      (add_no_write s t N w hs
        (fun u hu => hns u (List.mem_append_left _ hu)))
      (fun u hu => hns u (List.mem_append_right _ hu))
termination_by structural l

theorem add_fields_opt_no_write (s : TypeStore) (o : Option (List StructField))
    (N : String) (w : TypeInfo) (hs : s N = some w)
    (hns : ∀ u ∈ flattened_fields_opt o, ¬(u.name = N ∧ u.is_structural = true ∧ fieldsFilled u = true)) :
    add_fields_opt s o N = some w := by
  cases o with
  | none => exact hs
  | some l => exact add_fields_no_write s l N w hs (by simpa [flattened_fields_opt] using hns)
termination_by structural o

theorem add_fields_no_write (s : TypeStore) (l : List StructField) (N : String)
    (w : TypeInfo) (hs : s N = some w)
    (hns : ∀ u ∈ flattened_fields l, ¬(u.name = N ∧ u.is_structural = true ∧ fieldsFilled u = true)) :
    add_fields s l N = some w := by
  cases l with
  | nil => exact hs
  | cons f fs =>
    rw [show flattened_fields (f :: fs) = flattened f.2 ++ flattened_fields fs from by
      simp [flattened_fields]] at hns
    exact add_fields_no_write (add_to_type_store s f.2) fs N w
      (add_no_write s f.2 N w hs
        (fun u hu => hns u (List.mem_append_left _ hu)))
      (fun u hu => hns u (List.mem_append_right _ hu))
termination_by structural l
end

/-- Inserting a node with a non-empty field list under a fresh name leaves that
node as the entry. -/
theorem add_new_filled (s : TypeStore) (t : TypeInfo)
    (hN : s t.name = none) (hfil : fieldsFilled t = true) :
    add_to_type_store s t t.name = some t := by
  rcases t with ⟨n, b, q, sc, it, ut, pt, ia, asz, ae, ifn, rt, ar, istr, stt, sf, sa, ec, ie⟩
  rw [add_unfold]
  have h1 : addStep1 s (.mk n b q sc it ut pt ia asz ae ifn rt ar istr stt sf sa ec ie)
      (TypeInfo.mk n b q sc it ut pt ia asz ae ifn rt ar istr stt sf sa ec ie).name =
      some (.mk n b q sc it ut pt ia asz ae ifn rt ar istr stt sf sa ec ie) := by
    unfold addStep1
    rw [hN]
    simp [TypeStore.insert_apply]
  have h2 := add_opt_keeps_filled _ pt _ _ h1 hfil
  have h3 := add_opt_keeps_filled _ ae _ _ h2 hfil
  have h4 := add_opt_keeps_filled _ rt _ _ h3 hfil
  have h5 := add_list_opt_keeps_filled _ ar _ _ h4 hfil
  have h6 := add_fields_opt_keeps_filled _ sf _ _ h5 hfil
  exact addOverride_keeps_filled _ _ _ _ h6 hfil

/-- Inserting a node with an empty or absent field list under a fresh name
leaves that node as the entry, provided no proper sub-node can win the
override at that name. -/
theorem add_new_fwd (s : TypeStore) (t : TypeInfo)
    (hN : s t.name = none) (hfil : fieldsFilled t = false)
    (hns : ∀ u ∈ (flattened t).tail,
      ¬(u.name = t.name ∧ u.is_structural = true ∧ fieldsFilled u = true)) :
    add_to_type_store s t t.name = some t := by
  rcases t with ⟨n, b, q, sc, it, ut, pt, ia, asz, ae, ifn, rt, ar, istr, stt, sf, sa, ec, ie⟩
  rw [flattened_def, List.tail_cons] at hns
  rw [add_unfold]
  have h1 : addStep1 s (.mk n b q sc it ut pt ia asz ae ifn rt ar istr stt sf sa ec ie)
      (TypeInfo.mk n b q sc it ut pt ia asz ae ifn rt ar istr stt sf sa ec ie).name =
      some (.mk n b q sc it ut pt ia asz ae ifn rt ar istr stt sf sa ec ie) := by
    unfold addStep1
    rw [hN]
    simp [TypeStore.insert_apply]
  have h2 := add_opt_no_write _ pt _ _ h1
    (fun u hu => hns u (by simp only [List.mem_append]; tauto))
  have h3 := add_opt_no_write _ ae _ _ h2
    (fun u hu => hns u (by simp only [List.mem_append]; tauto))
  have h4 := add_opt_no_write _ rt _ _ h3
    (fun u hu => hns u (by simp only [List.mem_append]; tauto))
  have h5 := add_list_opt_no_write _ ar _ _ h4
    (fun u hu => hns u (by simp only [List.mem_append]; tauto))
  have h6 := add_fields_opt_no_write _ sf _ _ h5
    (fun u hu => hns u (by simp only [List.mem_append]; tauto))
  apply addOverride_keeps_of _ _ _ _ h6
  intro _
  simp [overrides, fieldsMissing_eq, hfil]

/-- The forward-declaration upgrade: a structural node with a non-empty field
list replaces a field-missing entry under its own name, provided no proper
sub-node wins the override first. -/
theorem add_upgrade (s : TypeStore) (t : TypeInfo) (w : TypeInfo)
    (hs : s t.name = some w) (hmiss : fieldsMissing w = true)
    (hstr : t.is_structural = true) (hfil : fieldsFilled t = true)
    (hns : ∀ u ∈ (flattened t).tail,
      ¬(u.name = t.name ∧ u.is_structural = true ∧ fieldsFilled u = true)) :
    add_to_type_store s t t.name = some t := by
  rcases t with ⟨n, b, q, sc, it, ut, pt, ia, asz, ae, ifn, rt, ar, istr, stt, sf, sa, ec, ie⟩
  rw [flattened_def, List.tail_cons] at hns
  rw [add_unfold]
  have h1 := addStep1_keeps s
    (.mk n b q sc it ut pt ia asz ae ifn rt ar istr stt sf sa ec ie) _ w hs
  have h2 := add_opt_no_write _ pt _ _ h1
    (fun u hu => hns u (by simp only [List.mem_append]; tauto))
  have h3 := add_opt_no_write _ ae _ _ h2
    (fun u hu => hns u (by simp only [List.mem_append]; tauto))
  have h4 := add_opt_no_write _ rt _ _ h3
    (fun u hu => hns u (by simp only [List.mem_append]; tauto))
  have h5 := add_list_opt_no_write _ ar _ _ h4
    (fun u hu => hns u (by simp only [List.mem_append]; tauto))
  have h6 := add_fields_opt_no_write _ sf _ _ h5
    (fun u hu => hns u (by simp only [List.mem_append]; tauto))
  unfold addOverride
  rw [h6]
  have hov : overrides (.mk n b q sc it ut pt ia asz ae ifn rt ar istr stt sf sa ec ie) w = true := by
    simp [overrides, hmiss, hfil, by simpa using hstr]
  simp [hov, TypeStore.insert_apply]

/-- A node is in its own flattening (as the head). -/
theorem flattened_self_mem (t : TypeInfo) : t ∈ flattened t := by
  rcases t with ⟨n, b, q, sc, it, ut, pt, ia, asz, ae, ifn, rt, ar, istr, stt, sf, sa, ec, ie⟩
  rw [flattened_def]
  exact List.mem_cons_self _ _

theorem mem_flattened_list_of {l : List TypeInfo} {p x : TypeInfo}
    (hp : p ∈ l) (hx : x ∈ flattened p) : x ∈ flattened_list l := by
  induction l with
  | nil => cases hp
  | cons t ts ih =>
    rw [show flattened_list (t :: ts) = flattened t ++ flattened_list ts from by
      simp [flattened_list]]
    rcases List.mem_cons.mp hp with h | h
    · subst h
      exact List.mem_append_left _ hx
    · exact List.mem_append_right _ (ih h)

theorem mem_flattened_fields_of {l : List StructField} {f : StructField}
    {x : TypeInfo} (hf : f ∈ l) (hx : x ∈ flattened f.2) :
    x ∈ flattened_fields l := by
  induction l with
  | nil => cases hf
  | cons g gs ih =>
    rw [show flattened_fields (g :: gs) = flattened g.2 ++ flattened_fields gs from by
      simp [flattened_fields]]
    rcases List.mem_cons.mp hf with h | h
    · subst h
      exact List.mem_append_left _ hx
    · exact List.mem_append_right _ (ih h)

theorem mem_flattened_pointer {t p x : TypeInfo} (h : t.pointer_to = some p)
    (hx : x ∈ flattened p) : x ∈ flattened t := by
  rcases t with ⟨n, b, q, sc, it, ut, pt, ia, asz, ae, ifn, rt, ar, istr, stt, sf, sa, ec, ie⟩
  simp only [TypeInfo.pointer_to_mk] at h
  subst h
  exact mem_flattened_of_pt (by simpa [flattened_opt] using hx)

theorem mem_flattened_element {t p x : TypeInfo} (h : t.array_element = some p)
    (hx : x ∈ flattened p) : x ∈ flattened t := by
  rcases t with ⟨n, b, q, sc, it, ut, pt, ia, asz, ae, ifn, rt, ar, istr, stt, sf, sa, ec, ie⟩
  simp only [TypeInfo.array_element_mk] at h
  subst h
  exact mem_flattened_of_ae (by simpa [flattened_opt] using hx)

theorem mem_flattened_ret {t p x : TypeInfo} (h : t.return_type = some p)
    (hx : x ∈ flattened p) : x ∈ flattened t := by
  rcases t with ⟨n, b, q, sc, it, ut, pt, ia, asz, ae, ifn, rt, ar, istr, stt, sf, sa, ec, ie⟩
  simp only [TypeInfo.return_type_mk] at h
  subst h
  exact mem_flattened_of_rt (by simpa [flattened_opt] using hx)

theorem mem_flattened_arg {t x : TypeInfo} {l : List TypeInfo} {p : TypeInfo}
    (h : t.arguments = some l) (hp : p ∈ l) (hx : x ∈ flattened p) :
    x ∈ flattened t := by
  rcases t with ⟨n, b, q, sc, it, ut, pt, ia, asz, ae, ifn, rt, ar, istr, stt, sf, sa, ec, ie⟩
  simp only [TypeInfo.arguments_mk] at h
  subst h
  exact mem_flattened_of_ar
    (by simpa [flattened_list_opt] using mem_flattened_list_of hp hx)

theorem mem_flattened_field {t x : TypeInfo} {l : List StructField}
    {f : StructField} (h : t.struct_fields = some l) (hf : f ∈ l)
    (hx : x ∈ flattened f.2) : x ∈ flattened t := by
  rcases t with ⟨n, b, q, sc, it, ut, pt, ia, asz, ae, ifn, rt, ar, istr, stt, sf, sa, ec, ie⟩
  simp only [TypeInfo.struct_fields_mk] at h
  subst h
  exact mem_flattened_of_sf
    (by simpa [flattened_fields_opt] using mem_flattened_fields_of hf hx)

/-- Every node reachable along the five edge kinds appears in the
flattening. -/
theorem reach_mem_flattened {t u : TypeInfo} (h : Reach t u) : u ∈ flattened t := by
  induction h with
  | refl t => exact flattened_self_mem t
  | pointee hpt _ ih => exact mem_flattened_pointer hpt ih
  | element hae _ ih => exact mem_flattened_element hae ih
  | ret hrt _ ih => exact mem_flattened_ret hrt ih
  | arg har hp _ ih => exact mem_flattened_arg har hp ih
  | field hsf hf _ ih => exact mem_flattened_field hsf hf ih

/-! The converse: every flattened node is reachable. -/
mutual
theorem mem_flattened_reach (t : TypeInfo) (u : TypeInfo) (hu : u ∈ flattened t) :
    Reach t u := by
  rcases t with ⟨n, b, q, sc, it, ut, pt, ia, asz, ae, ifn, rt, ar, istr, stt, sf, sa, ec, ie⟩
  rw [flattened_def] at hu
  rcases List.mem_cons.mp hu with hu | hu
  · subst hu
    exact Reach.refl _
  · simp only [List.mem_append] at hu
    rcases hu with (((hu | hu) | hu) | hu) | hu
    · cases pt with
      | none => simp [flattened_opt] at hu
      | some p =>
        exact Reach.pointee (by simp)
          (mem_flattened_reach p u (by simpa [flattened_opt] using hu))
    · cases ae with
      | none => simp [flattened_opt] at hu
      | some p =>
        exact Reach.element (by simp)
          (mem_flattened_reach p u (by simpa [flattened_opt] using hu))
    · cases rt with
      | none => simp [flattened_opt] at hu
      | some p =>
        exact Reach.ret (by simp)
          (mem_flattened_reach p u (by simpa [flattened_opt] using hu))
    · cases ar with
      | none => simp [flattened_list_opt] at hu
      | some l =>
        obtain ⟨p, hp, hr⟩ := mem_flattened_list_reach l u
          (by simpa [flattened_list_opt] using hu)
        exact Reach.arg (by simp) hp hr
    · cases sf with
      | none => simp [flattened_fields_opt] at hu
      | some l =>
        obtain ⟨f, hf, hr⟩ := mem_flattened_fields_reach l u
          (by simpa [flattened_fields_opt] using hu)
        exact Reach.field (by simp) hf hr
termination_by structural t

theorem mem_flattened_list_reach (l : List TypeInfo) (u : TypeInfo)
    (hu : u ∈ flattened_list l) : ∃ p ∈ l, Reach p u := by
  cases l with
  | nil => simp [flattened_list] at hu
  | cons t ts =>
    rw [show flattened_list (t :: ts) = flattened t ++ flattened_list ts from by
      simp [flattened_list]] at hu
    rcases List.mem_append.mp hu with hu | hu
    · exact ⟨t, List.mem_cons_self _ _, mem_flattened_reach t u hu⟩
    · obtain ⟨p, hp, hr⟩ := mem_flattened_list_reach ts u hu
      exact ⟨p, List.mem_cons_of_mem _ hp, hr⟩
termination_by structural l

theorem mem_flattened_fields_reach (l : List StructField) (u : TypeInfo)
    (hu : u ∈ flattened_fields l) : ∃ f ∈ l, Reach f.2 u := by
  cases l with
  | nil => simp [flattened_fields] at hu
  | cons g gs =>
    rw [show flattened_fields (g :: gs) = flattened g.2 ++ flattened_fields gs from by
      simp [flattened_fields]] at hu
    rcases List.mem_append.mp hu with hu | hu
    · exact ⟨g, List.mem_cons_self _ _, mem_flattened_reach g.2 u hu⟩
    · obtain ⟨f, hf, hr⟩ := mem_flattened_fields_reach gs u hu
      exact ⟨f, List.mem_cons_of_mem _ hf, hr⟩
termination_by structural l
end

/-! ## Claim C1 -/

/-- Claim C1, counterexample: from an empty store, inserting the forward
declaration `c1fwd` of `struct N` and then the fully defined node `c1outer`
(structural, non-empty field list) leaves neither the forward declaration nor
`c1outer` in the store, but `c1outer`'s same-name sub-node: the fully defined
node inserted second is not what the store ends up holding, refuting the
claim as stated. -/
theorem claim_c1_counterexample :
    c1fwd.is_structural = true ∧ c1fwd.struct_fields = some [] ∧
    c1outer.is_structural = true ∧ fieldsFilled c1outer = true ∧
    add_to_type_store (add_to_type_store TypeStore.empty c1fwd) c1outer "struct N"
      = some c1inner ∧
    c1inner ≠ c1outer := by
  refine ⟨rfl, rfl, rfl, rfl, rfl, ?_⟩
  intro h
  simp only [c1inner, c1outer, TypeInfo.mk.injEq] at h
  simp at h

/-- Claim C1, amended: if the store has no entry for `N` and no proper
sub-node of either inserted node is itself a structural node named `N` with a
non-empty field list, then inserting a forward-declared node for `N`
(structural, empty field list) and a fully defined node for `N` (structural,
non-empty field list), in either order, leaves the fully defined node as the
store's entry for `N`. -/
theorem claim_c1_amended (s : TypeStore) (N : String) (f d : TypeInfo)
    (hsN : s N = none)
    (hfname : f.name = N) (_hfstr : f.is_structural = true)
    (hffil : fieldsFilled f = false)
    (hdname : d.name = N) (hdstr : d.is_structural = true)
    (hdfil : fieldsFilled d = true)
    (hfsh : ∀ u ∈ (flattened f).tail,
      ¬(u.name = N ∧ u.is_structural = true ∧ fieldsFilled u = true))
    (hdsh : ∀ u ∈ (flattened d).tail,
      ¬(u.name = N ∧ u.is_structural = true ∧ fieldsFilled u = true)) :
    add_to_type_store (add_to_type_store s f) d N = some d ∧
    add_to_type_store (add_to_type_store s d) f N = some d := by
  constructor
  · have h1 : add_to_type_store s f N = some f := by
      have h := add_new_fwd s f (by rw [hfname]; exact hsN) hffil
        (by rw [hfname]; exact hfsh)
      rw [hfname] at h
      exact h
    have h2 := add_upgrade (add_to_type_store s f) d f
      (by rw [hdname]; exact h1)
      (by rw [fieldsMissing_eq, hffil]; rfl)
      hdstr hdfil (by rw [hdname]; exact hdsh)
    rw [hdname] at h2
    exact h2
  · have h1 : add_to_type_store s d N = some d := by
      have h := add_new_filled s d (by rw [hdname]; exact hsN) hdfil
      rw [hdname] at h
      exact h
    exact add_keeps_filled _ f N d h1 hdfil

/-- Claim C1, witness: the amended claim applied to the concrete forward
declaration and full definition of `struct N`. -/
theorem claim_c1_witness :
    add_to_type_store (add_to_type_store TypeStore.empty c1fwd) c1full "struct N"
      = some c1full ∧
    add_to_type_store (add_to_type_store TypeStore.empty c1full) c1fwd "struct N"
      = some c1full :=
  claim_c1_amended TypeStore.empty "struct N" c1fwd c1full rfl rfl rfl rfl rfl
    rfl rfl
    (by
      intro u hu
      rw [show (flattened c1fwd).tail = [] from rfl] at hu
      cases hu)
    (by
      intro u hu
      rw [show (flattened c1full).tail = [tyIntN] from rfl] at hu
      rcases List.mem_singleton.mp hu with rfl
      rintro ⟨h1, _, _⟩
      simp [tyIntN, TypeInfo.nameOnly] at h1)

/-! ## Claim C2 -/

/-- Claim C2, counterexample: the invariant fails across the per-header merge
of `extract_syscalls` (`type_store.update(types)`): after `unistd.h`
contributes the fully defined `struct N`, the later `signal.h` merge replaces
it with the forward declaration, and the run's final store holds the forward
declaration. -/
theorem claim_c2_counterexample :
    fieldsFilled c1full = true ∧ c1full.is_structural = true ∧
    (process_headers c2env ["read"] ["unistd.h"]
      ⟨[], [], TypeStore.empty⟩).type_store "struct N" = some c1full ∧
    (process_headers c2env ["read"] ["unistd.h", "signal.h"]
      ⟨[], [], TypeStore.empty⟩).type_store "struct N" = some c1fwd ∧
    fieldsFilled c1fwd = false ∧
    (extract_syscalls c2env).toOption.map (fun ctx => ctx.type_store "struct N")
      = some (some c1fwd) :=
  ⟨rfl, rfl, rfl, rfl, rfl, rfl⟩

/-- Claim C2, amended: once the type store maps a name to a structural node
with a non-empty struct field list, no later `add_to_type_store` insertion
replaces that entry (the per-header `dict.update` merge of `extract_syscalls`
is not covered: it overwrites unconditionally, and enum entries, whose
definedness lies in `enum_constants` rather than `struct_fields`, are not
protected). -/
theorem claim_c2_amended (s : TypeStore) (t : TypeInfo) (N : String)
    (v : TypeInfo) (_hstr : v.is_structural = true)
    (hfil : fieldsFilled v = true) (hs : s N = some v) :
    add_to_type_store s t N = some v :=
  add_keeps_filled s t N v hs hfil

/-- Claim C2, witness: a store already holding the full `struct N` keeps it
across an insertion of the forward declaration. -/
theorem claim_c2_witness :
    add_to_type_store (TypeStore.empty.insert "struct N" c1full) c1fwd "struct N"
      = some c1full :=
  claim_c2_amended (TypeStore.empty.insert "struct N" c1full) c1fwd "struct N"
    c1full rfl rfl rfl

/-! ## Claim C4 -/

/-- Claim C4: `flattened` is a deterministic pre-order traversal: the node
itself comes first; the visited set is exactly the set of nodes reachable
along the five edge kinds; and the children are traversed in the fixed order
pointee, array element, return type, arguments, struct-field types.
Determinism (flattening the same node twice yields identical sequences) holds
because `flattened` is a pure function of the node. -/
theorem claim_c4 (t : TypeInfo) :
    (flattened t).head? = some t ∧
    (∀ u : TypeInfo, u ∈ flattened t ↔ Reach t u) ∧
    flattened t = t ::
      (flattened_opt t.pointer_to ++ flattened_opt t.array_element ++
        flattened_opt t.return_type ++ flattened_list_opt t.arguments ++
        flattened_fields_opt t.struct_fields) := by
  refine ⟨?_, fun u => ⟨fun hu => mem_flattened_reach t u hu,
    fun hr => reach_mem_flattened hr⟩, ?_⟩
  · rcases t with ⟨n, b, q, sc, it, ut, pt, ia, asz, ae, ifn, rt, ar, istr, stt, sf, sa, ec, ie⟩
    rw [flattened_def]
    rfl
  · rcases t with ⟨n, b, q, sc, it, ut, pt, ia, asz, ae, ifn, rt, ar, istr, stt, sf, sa, ec, ie⟩
    rw [flattened_def]
    rfl

/-! ## Claim C6 -/

/-- Claim C6: after `add_to_type_store(store, node)`, every node reachable
from `node` through the pointee, array-element, return-type, argument and
struct-field edges, including `node` itself, has its name as a key of the
store, with no precondition on whether `node`'s name was present before. -/
theorem claim_c6 (store : TypeStore) (node u : TypeInfo) (hu : Reach node u) :
    ((add_to_type_store store node) u.name).isSome = true :=
  add_flat_isSome store node u (reach_mem_flattened hu)

/-- Claim C6, witness: registering the full `struct N` also registers the
name of its field type, and its own name. -/
theorem claim_c6_witness :
    ((add_to_type_store TypeStore.empty c1full) tyIntN.name).isSome = true ∧
    ((add_to_type_store TypeStore.empty c1full) c1full.name).isSome = true :=
  ⟨claim_c6 TypeStore.empty c1full tyIntN
      (Reach.field rfl (List.mem_singleton.mpr rfl) (Reach.refl _)),
   claim_c6 TypeStore.empty c1full c1full (Reach.refl _)⟩

/-! ## Claim C5 -/

/-- Claim C5, counterexample: a candidate that adds no fields or constants
(an elaborated non-structural node) nevertheless replaces the stored
forward-declared struct of the same unqualified name, refuting the "only if
the candidate adds fields/constants that the stored entry lacks" condition. -/
theorem claim_c5_counterexample :
    c5cand.is_elaborated = true ∧
    get_unqualified_type_name c5cand = "S" ∧
    assocLookup [("S", c5stored)] "S" = some c5stored ∧
    c5cand.struct_fields = none ∧ c5cand.enum_constants = none ∧
    check_and_add c5cand [("S", c5stored)] = [("S", c5cand)] :=
  ⟨rfl, rfl, rfl, rfl, rfl, rfl⟩

/-- Claim C5, amended: for a candidate that passes the elaborated/typedef
gate and whose unqualified name is already present, the candidate replaces
the stored entry exactly when the stored entry is a non-anonymous structural
node that is not a fully defined enum and has no non-empty struct field list
(i.e. a replaceable forward declaration) — irrespective of what the
candidate itself adds; stored entries that are anonymous, fully defined, or
not structural are never replaced. -/
theorem claim_c5_amended (acc : List (String × TypeInfo)) (t v : TypeInfo)
    (hgate : (t.is_elaborated || t.storage_class == some StorageClass.TYPEDEF) = true)
    (hv : assocLookup acc (get_unqualified_type_name t) = some v) :
    ((v.is_structural = true ∧ v.struct_anonymous = false ∧
      ¬(v.struct_type = some StructType.ENUM ∧ enumConstantsFilled v = true) ∧
      fieldsFilled v = false) →
      check_and_add t acc = assocUpsert acc (get_unqualified_type_name t) t) ∧
    (v.is_structural = false → check_and_add t acc = acc) ∧
    (v.struct_anonymous = true → check_and_add t acc = acc) ∧
    ((v.struct_type = some StructType.ENUM ∧ enumConstantsFilled v = true) →
      check_and_add t acc = acc) ∧
    (fieldsFilled v = true → check_and_add t acc = acc) := by
  simp only [check_and_add, hgate, hv, if_true]
  refine ⟨?_, ?_, ?_, ?_, ?_⟩
  · rintro ⟨h1, h2, h3, h4⟩
    have h3b : (v.struct_type == some StructType.ENUM && enumConstantsFilled v) = false := by
      cases he : v.struct_type == some StructType.ENUM with
      | false => rfl
      | true =>
        cases hec : enumConstantsFilled v with
        | false => rfl
        | true => exact absurd ⟨by simpa using he, hec⟩ h3
    simp [h1, h2, h3b, h4]
  · intro h1
    simp [h1]
  · intro h2
    by_cases h1 : v.is_structural = true
    · simp [h1, h2]
    · simp [Bool.eq_false_iff.mpr h1]
  · rintro ⟨h3, h4⟩
    by_cases h1 : v.is_structural = true
    · by_cases h2 : v.struct_anonymous = true
      · simp [h1, h2]
      · have h3b : (v.struct_type == some StructType.ENUM && enumConstantsFilled v) = true := by
          simp [h3, h4]
        simp [h1, Bool.eq_false_iff.mpr h2, h3b]
    · simp [Bool.eq_false_iff.mpr h1]
  · intro h4
    by_cases h1 : v.is_structural = true
    · by_cases h2 : v.struct_anonymous = true
      · simp [h1, h2]
      · by_cases h3 : (v.struct_type == some StructType.ENUM && enumConstantsFilled v) = true
        · simp [h1, Bool.eq_false_iff.mpr h2, h3]
        · simp [h1, Bool.eq_false_iff.mpr h2, Bool.eq_false_iff.mpr h3, h4]
    · simp [Bool.eq_false_iff.mpr h1]

/-- Claim C5, witness: the amended characterization applied to the concrete
stored forward declaration and gate-passing candidate. -/
theorem claim_c5_witness :
    check_and_add c5cand [("S", c5stored)] =
      assocUpsert [("S", c5stored)] (get_unqualified_type_name c5cand) c5cand :=
  (claim_c5_amended [("S", c5stored)] c5cand c5stored rfl rfl).1
    ⟨rfl, rfl, by rintro ⟨h, _⟩; exact absurd h (by decide), rfl⟩

/-! ## Claim C7 -/

/-- The token string built by `get_unqualified_type_name` equals the
fixed-order token list of the specification, joined by spaces. -/
theorem qualifier_coc_eq (qs : List TypeQualifier) :
    qualifier_coc qs = qualifier_tokens_spec qs := by
  unfold qualifier_coc qualifier_tokens_spec
  cases hc : qs.contains TypeQualifier.CONST <;>
    cases hv : qs.contains TypeQualifier.VOLATILE <;>
      cases hr : qs.contains TypeQualifier.RESTRICT <;>
        simp [hc, hv, hr] <;> rfl

/-- Claim C7: `get_unqualified_type_name` agrees with the specification-side
restatement (fixed token order const, volatile, restrict; suffix removal for
pointers, prefix removal otherwise), and returns the name unchanged when the
qualifier list is `None`. -/
theorem claim_c7 (t : TypeInfo) :
    get_unqualified_type_name t = unqualified_name_spec t ∧
    (t.qualifiers = none → get_unqualified_type_name t = t.name) := by
  constructor
  · unfold get_unqualified_type_name unqualified_name_spec
    cases hq : t.qualifiers with
    | none => rfl
    | some qs => simp only [qualifier_coc_eq]
  · intro h
    unfold get_unqualified_type_name
    rw [h]

/-- Claim C7, witness: applied to the unqualified pointer node. -/
theorem claim_c7_witness : get_unqualified_type_name tyVoidPtr = tyVoidPtr.name :=
  (claim_c7 tyVoidPtr).2 rfl

/-! ## Claim C8 -/

/-- Claim C8: `extract_syscalls` aborts exactly when the macro expansion of
`sys/syscall.h` is falsy (`None` or empty), and a header whose own expansion
is falsy is skipped by the header loop — the loop continues with the
remaining headers unchanged. -/
theorem claim_c8 :
    (∀ env : ExtractEnv,
      runAborted (extract_syscalls env) = true ↔
        pyFalsy (env.expand_macros "sys/syscall.h") = true) ∧
    (∀ (env : ExtractEnv) (names : List String) (h : String) (rest : List String)
      (acc : HeaderAcc), pyFalsy (env.expand h) = true →
        process_headers env names (h :: rest) acc =
          process_headers env names rest acc) := by
  constructor
  · intro env
    by_cases hb : pyFalsy (env.expand_macros "sys/syscall.h") = true
    · simp [extract_syscalls, runAborted, hb]
    · simp only [Bool.not_eq_true] at hb
      simp [extract_syscalls, runAborted, hb]
  · intro env names h rest acc hf
    simp [process_headers, hf]

/-- Claim C8, witness: a run with an unobtainable `sys/syscall.h` aborts, and
a header with a falsy expansion is skipped by the loop. -/
theorem claim_c8_witness :
    runAborted (extract_syscalls c8bad) = true ∧
    process_headers c2env ["read"] ("ftw.h" :: ["unistd.h"])
        ⟨[], [], TypeStore.empty⟩ =
      process_headers c2env ["read"] ["unistd.h"] ⟨[], [], TypeStore.empty⟩ :=
  ⟨(claim_c8.1 c8bad).mpr rfl,
   claim_c8.2 c2env ["read"] "ftw.h" ["unistd.h"] ⟨[], [], TypeStore.empty⟩ rfl⟩

/-! ## Lemmas about `extractF`: the processing stack and termination -/

/-- The measure is antitone in the stack. -/
theorem envKeysLeft_mono (env : CEnv) (st st2 : List String) (h : st ⊆ st2) :
    envKeysLeft env st2 ≤ envKeysLeft env st := by
  unfold envKeysLeft
  rw [← List.countP_eq_length_filter, ← List.countP_eq_length_filter]
  apply List.countP_mono_left
  intro a _ ha
  simp only [Bool.not_eq_true'] at ha ⊢
  cases hc : st.contains (elabEntry a) with
  | false => rfl
  | true =>
    exfalso
    have hmem : elabEntry a ∈ st2 := h (by simpa using hc)
    have hc2 : st2.contains (elabEntry a) = true := by simpa using hmem
    rw [hc2] at ha
    cases ha

/-- Counting with a pointwise-stronger predicate that fails on a witness the
weaker one satisfies is strictly smaller. -/
theorem countP_lt_of_witness {α : Type} (l : List α) (p q : α → Bool)
    (hall : ∀ a ∈ l, p a = true → q a = true) (a0 : α) (ha0 : a0 ∈ l)
    (hp : p a0 = false) (hq : q a0 = true) : l.countP p < l.countP q := by
  induction l with
  | nil => cases ha0
  | cons x xs ih =>
    rcases List.mem_cons.mp ha0 with hx | hx
    · subst hx
      have hle : xs.countP p ≤ xs.countP q :=
        List.countP_mono_left (fun a ha => hall a (List.mem_cons_of_mem _ ha))
      rw [List.countP_cons, List.countP_cons]
      have e1 : (if p a0 = true then 1 else 0) = 0 := by simp [hp]
      have e2 : (if q a0 = true then 1 else 0) = 1 := by simp [hq]
      rw [e1, e2]
      omega
    · have h1 : xs.countP p < xs.countP q :=
        ih (fun a ha => hall a (List.mem_cons_of_mem _ ha)) hx
      rw [List.countP_cons, List.countP_cons]
      have h2 : (if p x = true then 1 else 0) ≤ (if q x = true then 1 else 0) := by
        by_cases hpx : p x = true
        · simp [hpx, hall x (List.mem_cons_self _ _) hpx]
        · simp [hpx]
      omega

/-- Pushing the elaborated entry of a present key strictly decreases the
measure. -/
theorem envKeysLeft_push (env : CEnv) (st : List String) (s0 : String)
    (hk : s0 ∈ env.map Prod.fst) (hnc : st.contains (elabEntry s0) = false) :
    envKeysLeft env (st ++ [elabEntry s0]) < envKeysLeft env st := by
  unfold envKeysLeft
  rw [← List.countP_eq_length_filter, ← List.countP_eq_length_filter]
  refine countP_lt_of_witness _ _ _ ?hall s0 hk ?hp ?hq
  case hall =>
    intro a _ ha
    simp only [Bool.not_eq_true'] at ha ⊢
    cases hc : st.contains (elabEntry a) with
    | false => rfl
    | true =>
      exfalso
      have hmem : elabEntry a ∈ st ++ [elabEntry s0] :=
        List.mem_append_left _ (by simpa using hc)
      have hc2 : (st ++ [elabEntry s0]).contains (elabEntry a) = true := by
        simpa using hmem
      rw [hc2] at ha
      cases ha
  case hp => simp
  case hq => simpa using hnc

/-- The processing stack only grows: every entry of the input stack is in the
output stack of `extractF` and its helpers (the source never removes entries
from the shared `processing_types` list). -/
theorem extract_stack_sub : ∀ n : Nat,
    (∀ (env : CEnv) (st : List String) (t : CType) (r : TypeInfo)
      (st2 : List String), extractF n env st t = some (r, st2) → st ⊆ st2) ∧
    (∀ (env : CEnv) (st : List String) (l : List CType) (r : List TypeInfo)
      (st2 : List String), extractListF n env st l = some (r, st2) → st ⊆ st2) ∧
    (∀ (env : CEnv) (st : List String) (l : List (String × CType))
      (r : List StructField) (st2 : List String),
      extractFieldsF n env st l = some (r, st2) → st ⊆ st2) := by
  intro n
  induction n with
  | zero =>
    refine ⟨?_, ?_, ?_⟩ <;> intro env st x r st2 h <;>
      simp [extractF, extractListF, extractFieldsF] at h
  | succ n ih =>
    obtain ⟨ihT, ihL, ihF⟩ := ih
    refine ⟨?_, ?_, ?_⟩
    · intro env st t r st2 h
      have hpush : st ⊆ st ++ [stackEntry t] := List.subset_append_left _ _
      cases t with
      | pointer sp q cn p =>
        simp only [extractF, CType.isElaboratedKind, Bool.and_false,
          Bool.false_eq_true, if_false] at h
        cases hc : extractF n env (st ++ [stackEntry (CType.pointer sp q cn p)]) p with
        | none => simp only [hc] at h; cases h
        | some v =>
          obtain ⟨ti, st3⟩ := v
          simp only [hc] at h
          simp only [Option.some.injEq, Prod.mk.injEq] at h
          exact h.2 ▸ (List.Subset.trans hpush (ihT _ _ _ _ _ hc))
      | elaborated sp q =>
        simp only [extractF, CType.isElaboratedKind, Bool.and_true] at h
        by_cases hg : st.contains (stackEntry (CType.elaborated sp q)) = true
        · rw [if_pos hg] at h
          simp only [Option.some.injEq, Prod.mk.injEq] at h
          exact h.2 ▸ List.Subset.refl st
        · rw [if_neg hg] at h
          cases hc : extractF n env (st ++ [stackEntry (CType.elaborated sp q)])
              (envCanonical env sp) with
          | none => simp only [hc] at h; cases h
          | some v =>
            obtain ⟨ti, st3⟩ := v
            simp only [hc] at h
            simp only [Option.some.injEq, Prod.mk.injEq] at h
            exact h.2 ▸ (List.Subset.trans hpush (ihT _ _ _ _ _ hc))
      | constArray sp q sz el =>
        simp only [extractF, CType.isElaboratedKind, Bool.and_false,
          Bool.false_eq_true, if_false] at h
        cases hc : extractF n env (st ++ [stackEntry (CType.constArray sp q sz el)]) el with
        | none => simp only [hc] at h; cases h
        | some v =>
          obtain ⟨ti, st3⟩ := v
          simp only [hc] at h
          simp only [Option.some.injEq, Prod.mk.injEq] at h
          exact h.2 ▸ (List.Subset.trans hpush (ihT _ _ _ _ _ hc))
      | incompleteArray sp q el =>
        simp only [extractF, CType.isElaboratedKind, Bool.and_false,
          Bool.false_eq_true, if_false] at h
        cases hc : extractF n env (st ++ [stackEntry (CType.incompleteArray sp q el)]) el with
        | none => simp only [hc] at h; cases h
        | some v =>
          obtain ⟨ti, st3⟩ := v
          simp only [hc] at h
          simp only [Option.some.injEq, Prod.mk.injEq] at h
          exact h.2 ▸ (List.Subset.trans hpush (ihT _ _ _ _ _ hc))
      | functionProto sp q cn ret args =>
        simp only [extractF, CType.isElaboratedKind, Bool.and_false,
          Bool.false_eq_true, if_false] at h
        cases hc : extractF n env (st ++ [stackEntry (CType.functionProto sp q cn ret args)]) ret with
        | none => simp only [hc] at h; cases h
        | some v =>
          obtain ⟨ti, st3⟩ := v
          simp only [hc] at h
          cases hc2 : extractListF n env st3 args with
          | none => simp only [hc2] at h; cases h
          | some v2 =>
            obtain ⟨tis, st4⟩ := v2
            simp only [hc2] at h
            simp only [Option.some.injEq, Prod.mk.injEq] at h
            exact h.2 ▸ (List.Subset.trans hpush
              (List.Subset.trans (ihT _ _ _ _ _ hc) (ihL _ _ _ _ _ hc2)))
      | record sp q cn dk fields =>
        simp only [extractF, CType.isElaboratedKind, Bool.and_false,
          Bool.false_eq_true, if_false] at h
        cases hc : extractFieldsF n env (st ++ [stackEntry (CType.record sp q cn dk fields)]) fields with
        | none => simp only [hc] at h; cases h
        | some v =>
          obtain ⟨fis, st3⟩ := v
          simp only [hc] at h
          simp only [Option.some.injEq, Prod.mk.injEq] at h
          exact h.2 ▸ (List.Subset.trans hpush (ihF _ _ _ _ _ hc))
      | enum sp q cn constants =>
        simp only [extractF, CType.isElaboratedKind, Bool.and_false,
          Bool.false_eq_true, if_false, Option.some.injEq, Prod.mk.injEq] at h
        exact h.2 ▸ hpush
      | typedef sp q und =>
        simp only [extractF, CType.isElaboratedKind, Bool.and_false,
          Bool.false_eq_true, if_false] at h
        cases hc : extractF n env (st ++ [stackEntry (CType.typedef sp q und)]) und with
        | none => simp only [hc] at h; cases h
        | some v =>
          obtain ⟨ti, st3⟩ := v
          simp only [hc] at h
          simp only [Option.some.injEq, Prod.mk.injEq] at h
          exact h.2 ▸ (List.Subset.trans hpush (ihT _ _ _ _ _ hc))
      | basic sp q cn kn =>
        simp only [extractF, CType.isElaboratedKind, Bool.and_false,
          Bool.false_eq_true, if_false, Option.some.injEq, Prod.mk.injEq] at h
        exact h.2 ▸ hpush
    · intro env st l r st2 h
      cases l with
      | nil =>
        simp only [extractListF, Option.some.injEq, Prod.mk.injEq] at h
        exact h.2 ▸ List.Subset.refl st
      | cons t ts =>
        simp only [extractListF] at h
        cases hc : extractF n env st t with
        | none => simp only [hc] at h; cases h
        | some v =>
          obtain ⟨ti, st3⟩ := v
          simp only [hc] at h
          cases hc2 : extractListF n env st3 ts with
          | none => simp only [hc2] at h; cases h
          | some v2 =>
            obtain ⟨tis, st4⟩ := v2
            simp only [hc2] at h
            simp only [Option.some.injEq, Prod.mk.injEq] at h
            exact h.2 ▸ (List.Subset.trans (ihT _ _ _ _ _ hc) (ihL _ _ _ _ _ hc2))
    · intro env st l r st2 h
      cases l with
      | nil =>
        simp only [extractFieldsF, Option.some.injEq, Prod.mk.injEq] at h
        exact h.2 ▸ List.Subset.refl st
      | cons f fs =>
        simp only [extractFieldsF] at h
        cases hc : extractF n env st f.2 with
        | none => simp only [hc] at h; cases h
        | some v =>
          obtain ⟨ti, st3⟩ := v
          simp only [hc] at h
          cases hc2 : extractFieldsF n env st3 fs with
          | none => simp only [hc2] at h; cases h
          | some v2 =>
            obtain ⟨fis, st4⟩ := v2
            simp only [hc2] at h
            simp only [Option.some.injEq, Prod.mk.injEq] at h
            exact h.2 ▸ (List.Subset.trans (ihT _ _ _ _ _ hc) (ihF _ _ _ _ _ hc2))

/-- Fuel monotonicity: a result obtained at some depth fuel is stable under
more fuel, for `extractF` and its helpers. -/
theorem extract_mono : ∀ n : Nat,
    (∀ (env : CEnv) (st : List String) (t : CType) (r : TypeInfo × List String),
      extractF n env st t = some r → extractF (n + 1) env st t = some r) ∧
    (∀ (env : CEnv) (st : List String) (l : List CType)
      (r : List TypeInfo × List String),
      extractListF n env st l = some r → extractListF (n + 1) env st l = some r) ∧
    (∀ (env : CEnv) (st : List String) (l : List (String × CType))
      (r : List StructField × List String),
      extractFieldsF n env st l = some r → extractFieldsF (n + 1) env st l = some r) := by
  intro n
  induction n with
  | zero =>
    refine ⟨?_, ?_, ?_⟩ <;> intro env st x r h <;>
      simp [extractF, extractListF, extractFieldsF] at h
  | succ n ih =>
    obtain ⟨ihT, ihL, ihF⟩ := ih
    refine ⟨?_, ?_, ?_⟩
    · intro env st t r h
      cases t with
      | pointer sp q cn p =>
        simp only [extractF, CType.isElaboratedKind, Bool.and_false,
          Bool.false_eq_true, if_false] at h
        cases hc : extractF n env (st ++ [stackEntry (CType.pointer sp q cn p)]) p with
        | none => simp only [hc] at h; cases h
        | some v =>
          obtain ⟨ti, st3⟩ := v
          simp only [hc] at h
          rw [extractF]
          simp only [CType.isElaboratedKind, Bool.and_false, Bool.false_eq_true,
            if_false, ihT _ _ _ _ hc]
          exact h
      | elaborated sp q =>
        simp only [extractF, CType.isElaboratedKind, Bool.and_true] at h
        rw [extractF]
        simp only [CType.isElaboratedKind, Bool.and_true]
        by_cases hg : st.contains (stackEntry (CType.elaborated sp q)) = true
        · rw [if_pos hg] at h ⊢
          exact h
        · rw [if_neg hg] at h ⊢
          cases hc : extractF n env (st ++ [stackEntry (CType.elaborated sp q)])
              (envCanonical env sp) with
          | none => simp only [hc] at h; cases h
          | some v =>
            obtain ⟨ti, st3⟩ := v
            simp only [hc] at h
            simp only [ihT _ _ _ _ hc]
            exact h
      | constArray sp q sz el =>
        simp only [extractF, CType.isElaboratedKind, Bool.and_false,
          Bool.false_eq_true, if_false] at h
        cases hc : extractF n env (st ++ [stackEntry (CType.constArray sp q sz el)]) el with
        | none => simp only [hc] at h; cases h
        | some v =>
          obtain ⟨ti, st3⟩ := v
          simp only [hc] at h
          rw [extractF]
          simp only [CType.isElaboratedKind, Bool.and_false, Bool.false_eq_true,
            if_false, ihT _ _ _ _ hc]
          exact h
      | incompleteArray sp q el =>
        simp only [extractF, CType.isElaboratedKind, Bool.and_false,
          Bool.false_eq_true, if_false] at h
        cases hc : extractF n env (st ++ [stackEntry (CType.incompleteArray sp q el)]) el with
        | none => simp only [hc] at h; cases h
        | some v =>
          obtain ⟨ti, st3⟩ := v
          simp only [hc] at h
          rw [extractF]
          simp only [CType.isElaboratedKind, Bool.and_false, Bool.false_eq_true,
            if_false, ihT _ _ _ _ hc]
          exact h
      | functionProto sp q cn ret args =>
        simp only [extractF, CType.isElaboratedKind, Bool.and_false,
          Bool.false_eq_true, if_false] at h
        cases hc : extractF n env (st ++ [stackEntry (CType.functionProto sp q cn ret args)]) ret with
        | none => simp only [hc] at h; cases h
        | some v =>
          obtain ⟨ti, st3⟩ := v
          simp only [hc] at h
          cases hc2 : extractListF n env st3 args with
          | none => simp only [hc2] at h; cases h
          | some v2 =>
            obtain ⟨tis, st4⟩ := v2
            simp only [hc2] at h
            rw [extractF]
            simp only [CType.isElaboratedKind, Bool.and_false, Bool.false_eq_true,
              if_false, ihT _ _ _ _ hc, ihL _ _ _ _ hc2]
            exact h
      | record sp q cn dk fields =>
        simp only [extractF, CType.isElaboratedKind, Bool.and_false,
          Bool.false_eq_true, if_false] at h
        cases hc : extractFieldsF n env (st ++ [stackEntry (CType.record sp q cn dk fields)]) fields with
        | none => simp only [hc] at h; cases h
        | some v =>
          obtain ⟨fis, st3⟩ := v
          simp only [hc] at h
          rw [extractF]
          simp only [CType.isElaboratedKind, Bool.and_false, Bool.false_eq_true,
            if_false, ihF _ _ _ _ hc]
          exact h
      | enum sp q cn constants =>
        simp only [extractF, CType.isElaboratedKind, Bool.and_false,
          Bool.false_eq_true, if_false] at h
        rw [extractF]
        simp only [CType.isElaboratedKind, Bool.and_false, Bool.false_eq_true,
          if_false]
        exact h
      | typedef sp q und =>
        simp only [extractF, CType.isElaboratedKind, Bool.and_false,
          Bool.false_eq_true, if_false] at h
        cases hc : extractF n env (st ++ [stackEntry (CType.typedef sp q und)]) und with
        | none => simp only [hc] at h; cases h
        | some v =>
          obtain ⟨ti, st3⟩ := v
          simp only [hc] at h
          rw [extractF]
          simp only [CType.isElaboratedKind, Bool.and_false, Bool.false_eq_true,
            if_false, ihT _ _ _ _ hc]
          exact h
      | basic sp q cn kn =>
        simp only [extractF, CType.isElaboratedKind, Bool.and_false,
          Bool.false_eq_true, if_false] at h
        rw [extractF]
        simp only [CType.isElaboratedKind, Bool.and_false, Bool.false_eq_true,
          if_false]
        exact h
    · intro env st l r h
      cases l with
      | nil =>
        simp only [extractListF] at h
        rw [extractListF]
        exact h
      | cons t ts =>
        simp only [extractListF] at h
        cases hc : extractF n env st t with
        | none => simp only [hc] at h; cases h
        | some v =>
          obtain ⟨ti, st3⟩ := v
          simp only [hc] at h
          cases hc2 : extractListF n env st3 ts with
          | none => simp only [hc2] at h; cases h
          | some v2 =>
            obtain ⟨tis, st4⟩ := v2
            simp only [hc2] at h
            rw [extractListF]
            simp only [ihT _ _ _ _ hc, ihL _ _ _ _ hc2]
            exact h
    · intro env st l r h
      cases l with
      | nil =>
        simp only [extractFieldsF] at h
        rw [extractFieldsF]
        exact h
      | cons f fs =>
        simp only [extractFieldsF] at h
        cases hc : extractF n env st f.2 with
        | none => simp only [hc] at h; cases h
        | some v =>
          obtain ⟨ti, st3⟩ := v
          simp only [hc] at h
          cases hc2 : extractFieldsF n env st3 fs with
          | none => simp only [hc2] at h; cases h
          | some v2 =>
            obtain ⟨fis, st4⟩ := v2
            simp only [hc2] at h
            rw [extractFieldsF]
            simp only [ihT _ _ _ _ hc, ihF _ _ _ _ hc2]
            exact h

/-- Fuel monotonicity up to any larger fuel, for `extractF`. -/
theorem extractF_mono_le {n m : Nat} (hnm : n ≤ m) (env : CEnv)
    (st : List String) (t : CType) (r : TypeInfo × List String)
    (h : extractF n env st t = some r) : extractF m env st t = some r := by
  induction hnm with
  | refl => exact h
  | step _ ih => exact (extract_mono _).1 _ _ _ _ ih

/-- Fuel monotonicity up to any larger fuel, for `extractListF`. -/
theorem extractListF_mono_le {n m : Nat} (hnm : n ≤ m) (env : CEnv)
    (st : List String) (l : List CType) (r : List TypeInfo × List String)
    (h : extractListF n env st l = some r) : extractListF m env st l = some r := by
  induction hnm with
  | refl => exact h
  | step _ ih => exact (extract_mono _).2.1 _ _ _ _ ih

/-- Fuel monotonicity up to any larger fuel, for `extractFieldsF`. -/
theorem extractFieldsF_mono_le {n m : Nat} (hnm : n ≤ m) (env : CEnv)
    (st : List String) (l : List (String × CType))
    (r : List StructField × List String)
    (h : extractFieldsF n env st l = some r) : extractFieldsF m env st l = some r := by
  induction hnm with
  | refl => exact h
  | step _ ih => exact (extract_mono _).2.2 _ _ _ _ ih

/-- A basic descriptor extracts successfully with one unit of fuel. -/
theorem extract_basic_one (env : CEnv) (st : List String) (sp : String)
    (q : Quals) (cn kn : String) :
    (extractF 1 env st (.basic sp q cn kn)).isSome = true := by
  rw [extractF]
  simp [CType.isElaboratedKind]

/-- An enum descriptor extracts successfully with one unit of fuel. -/
theorem extract_enum_one (env : CEnv) (st : List String) (sp : String)
    (q : Quals) (cn : String) (constants : List (String × Option Int)) :
    (extractF 1 env st (.enum sp q cn constants)).isSome = true := by
  rw [extractF]
  simp [CType.isElaboratedKind]

/-- Assoc lookup misses keys outside the key list. -/
theorem assocLookup_not_key {α : Type} (env : List (String × α)) (sp : String)
    (h : sp ∉ env.map Prod.fst) : assocLookup env sp = none := by
  induction env with
  | nil => rfl
  | cons kv rest ih =>
    simp only [List.map_cons, List.mem_cons] at h
    push_neg at h
    simp only [assocLookup]
    rw [if_neg (fun hc => h.1 hc.symm)]
    exact ih h.2

/-- The canonical of a spelling outside the environment degrades to the
default basic descriptor. -/
theorem envCanonical_not_key (env : CEnv) (sp : String)
    (h : sp ∉ env.map Prod.fst) :
    envCanonical env sp = .basic sp Quals.none sp "TypeKind.UNEXPOSED" := by
  unfold envCanonical
  rw [assocLookup_not_key env sp h]
  rfl

/-- Termination of `extract_type_info`: for every descriptor, stack and
environment there is a depth fuel at which `extractF` (and its list and
field helpers) return a result.  The induction is on the number of
environment keys whose elaborated entry is not yet on the stack, then on the
size of the descriptor. -/
theorem extract_total_aux : ∀ c k : Nat,
    (∀ (env : CEnv) (st : List String) (t : CType),
      envKeysLeft env st ≤ c → sizeOf t ≤ k →
      ∃ n, (extractF n env st t).isSome = true) ∧
    (∀ (env : CEnv) (st : List String) (l : List CType),
      envKeysLeft env st ≤ c → sizeOf l ≤ k →
      ∃ n, (extractListF n env st l).isSome = true) ∧
    (∀ (env : CEnv) (st : List String) (l : List (String × CType)),
      envKeysLeft env st ≤ c → sizeOf l ≤ k →
      ∃ n, (extractFieldsF n env st l).isSome = true) := by
  intro c
  induction c using Nat.strong_induction_on with
  | _ c IHc =>
  intro k
  induction k using Nat.strong_induction_on with
  | _ k IHk =>
  refine ⟨?_, ?_, ?_⟩
  · intro env st t hc hk
    cases t with
    | basic sp q cn kn => exact ⟨1, extract_basic_one env st sp q cn kn⟩
    | enum sp q cn constants => exact ⟨1, extract_enum_one env st sp q cn constants⟩
    | pointer sp q cn p =>
      have hsz : sizeOf p < k := by
        have h1 : sizeOf p < sizeOf (CType.pointer sp q cn p) := by simp
        omega
      have hsub : st ⊆ st ++ [stackEntry (CType.pointer sp q cn p)] :=
        List.subset_append_left _ _
      have hc2 : envKeysLeft env (st ++ [stackEntry (CType.pointer sp q cn p)]) ≤ c :=
        le_trans (envKeysLeft_mono env _ _ hsub) hc
      obtain ⟨n, hn⟩ := (IHk (sizeOf p) hsz).1 env
        (st ++ [stackEntry (CType.pointer sp q cn p)]) p hc2 (le_refl _)
      obtain ⟨⟨ti, st3⟩, heq⟩ := Option.isSome_iff_exists.mp hn
      refine ⟨n + 1, ?_⟩
      rw [extractF]
      simp [CType.isElaboratedKind, heq]
    | constArray sp q sz el =>
      have hsz : sizeOf el < k := by
        have h1 : sizeOf el < sizeOf (CType.constArray sp q sz el) := by simp
        omega
      have hsub : st ⊆ st ++ [stackEntry (CType.constArray sp q sz el)] :=
        List.subset_append_left _ _
      have hc2 : envKeysLeft env (st ++ [stackEntry (CType.constArray sp q sz el)]) ≤ c :=
        le_trans (envKeysLeft_mono env _ _ hsub) hc
      obtain ⟨n, hn⟩ := (IHk (sizeOf el) hsz).1 env
        (st ++ [stackEntry (CType.constArray sp q sz el)]) el hc2 (le_refl _)
      obtain ⟨⟨ti, st3⟩, heq⟩ := Option.isSome_iff_exists.mp hn
      refine ⟨n + 1, ?_⟩
      rw [extractF]
      simp [CType.isElaboratedKind, heq]
    | incompleteArray sp q el =>
      have hsz : sizeOf el < k := by
        have h1 : sizeOf el < sizeOf (CType.incompleteArray sp q el) := by simp
        omega
      have hsub : st ⊆ st ++ [stackEntry (CType.incompleteArray sp q el)] :=
        List.subset_append_left _ _
      have hc2 : envKeysLeft env (st ++ [stackEntry (CType.incompleteArray sp q el)]) ≤ c :=
        le_trans (envKeysLeft_mono env _ _ hsub) hc
      obtain ⟨n, hn⟩ := (IHk (sizeOf el) hsz).1 env
        (st ++ [stackEntry (CType.incompleteArray sp q el)]) el hc2 (le_refl _)
      obtain ⟨⟨ti, st3⟩, heq⟩ := Option.isSome_iff_exists.mp hn
      refine ⟨n + 1, ?_⟩
      rw [extractF]
      simp [CType.isElaboratedKind, heq]
    | typedef sp q und =>
      have hsz : sizeOf und < k := by
        have h1 : sizeOf und < sizeOf (CType.typedef sp q und) := by simp
        omega
      have hsub : st ⊆ st ++ [stackEntry (CType.typedef sp q und)] :=
        List.subset_append_left _ _
      have hc2 : envKeysLeft env (st ++ [stackEntry (CType.typedef sp q und)]) ≤ c :=
        le_trans (envKeysLeft_mono env _ _ hsub) hc
      obtain ⟨n, hn⟩ := (IHk (sizeOf und) hsz).1 env
        (st ++ [stackEntry (CType.typedef sp q und)]) und hc2 (le_refl _)
      obtain ⟨⟨ti, st3⟩, heq⟩ := Option.isSome_iff_exists.mp hn
      refine ⟨n + 1, ?_⟩
      rw [extractF]
      simp [CType.isElaboratedKind, heq]
    | functionProto sp q cn ret args =>
      have hszr : sizeOf ret < k := by
        have h1 : sizeOf ret < sizeOf (CType.functionProto sp q cn ret args) := by first
          | (simp; omega)
          | simp
        omega
      have hsza : sizeOf args < k := by
        have h1 : sizeOf args < sizeOf (CType.functionProto sp q cn ret args) := by first
          | (simp; omega)
          | simp
        omega
      have hsub : st ⊆ st ++ [stackEntry (CType.functionProto sp q cn ret args)] :=
        List.subset_append_left _ _
      have hc2 : envKeysLeft env
          (st ++ [stackEntry (CType.functionProto sp q cn ret args)]) ≤ c :=
        le_trans (envKeysLeft_mono env _ _ hsub) hc
      obtain ⟨n1, hn1⟩ := (IHk (sizeOf ret) hszr).1 env
        (st ++ [stackEntry (CType.functionProto sp q cn ret args)]) ret hc2 (le_refl _)
      obtain ⟨⟨ti, st3⟩, heq1⟩ := Option.isSome_iff_exists.mp hn1
      have hsub13 : st ++ [stackEntry (CType.functionProto sp q cn ret args)] ⊆ st3 :=
        (extract_stack_sub n1).1 _ _ _ _ _ heq1
      have hc3 : envKeysLeft env st3 ≤ c :=
        le_trans (envKeysLeft_mono env _ _ hsub13) hc2
      obtain ⟨n2, hn2⟩ := (IHk (sizeOf args) hsza).2.1 env st3 args hc3 (le_refl _)
      obtain ⟨⟨tis, st4⟩, heq2⟩ := Option.isSome_iff_exists.mp hn2
      have heq1b := extractF_mono_le (le_max_left n1 n2) _ _ _ _ heq1
      have heq2b := extractListF_mono_le (le_max_right n1 n2) _ _ _ _ heq2
      refine ⟨max n1 n2 + 1, ?_⟩
      rw [extractF]
      simp [CType.isElaboratedKind, heq1b, heq2b]
    | record sp q cn dk fields =>
      have hszf : sizeOf fields < k := by
        have h1 : sizeOf fields < sizeOf (CType.record sp q cn dk fields) := by first
          | (simp; omega)
          | simp
        omega
      have hsub : st ⊆ st ++ [stackEntry (CType.record sp q cn dk fields)] :=
        List.subset_append_left _ _
      have hc2 : envKeysLeft env (st ++ [stackEntry (CType.record sp q cn dk fields)]) ≤ c :=
        le_trans (envKeysLeft_mono env _ _ hsub) hc
      obtain ⟨n, hn⟩ := (IHk (sizeOf fields) hszf).2.2 env
        (st ++ [stackEntry (CType.record sp q cn dk fields)]) fields hc2 (le_refl _)
      obtain ⟨⟨fis, st3⟩, heq⟩ := Option.isSome_iff_exists.mp hn
      refine ⟨n + 1, ?_⟩
      rw [extractF]
      simp [CType.isElaboratedKind, heq]
    | elaborated sp q =>
      by_cases hg : st.contains (stackEntry (CType.elaborated sp q)) = true
      · have hg3 : stackEntry (CType.elaborated sp q) ∈ st := by simpa using hg
        refine ⟨1, ?_⟩
        rw [extractF]
        simp [CType.isElaboratedKind, hg3]
      · have hg2 : st.contains (stackEntry (CType.elaborated sp q)) = false :=
          Bool.eq_false_iff.mpr hg
        have hg4 : stackEntry (CType.elaborated sp q) ∉ st := by simpa using hg2
        by_cases hkey : sp ∈ env.map Prod.fst
        · have hdec : envKeysLeft env (st ++ [stackEntry (CType.elaborated sp q)]) <
              envKeysLeft env st :=
            envKeysLeft_push env st sp hkey hg2
          have hlt : envKeysLeft env (st ++ [stackEntry (CType.elaborated sp q)]) < c :=
            lt_of_lt_of_le hdec hc
          obtain ⟨n, hn⟩ := ((IHc _ hlt) (sizeOf (envCanonical env sp))).1 env
            (st ++ [stackEntry (CType.elaborated sp q)]) (envCanonical env sp)
            (le_refl _) (le_refl _)
          obtain ⟨⟨ti, st3⟩, heq⟩ := Option.isSome_iff_exists.mp hn
          refine ⟨n + 1, ?_⟩
          rw [extractF]
          simp [CType.isElaboratedKind, hg4, heq]
        · have hcanon := envCanonical_not_key env sp hkey
          have h1 : (extractF 1 env (st ++ [stackEntry (CType.elaborated sp q)])
              (envCanonical env sp)).isSome = true := by
            rw [hcanon]
            exact extract_basic_one _ _ _ _ _ _
          obtain ⟨⟨ti, st3⟩, heq⟩ := Option.isSome_iff_exists.mp h1
          refine ⟨2, ?_⟩
          rw [extractF]
          simp [CType.isElaboratedKind, hg4, heq]
  · intro env st l hc hk
    cases l with
    | nil => exact ⟨1, by rw [extractListF]; rfl⟩
    | cons t ts =>
      have hszt : sizeOf t < k := by
        have h1 : sizeOf t < sizeOf (t :: ts) := by simp; omega
        omega
      have hszts : sizeOf ts < k := by
        have h1 : sizeOf ts < sizeOf (t :: ts) := by simp
        omega
      obtain ⟨n1, hn1⟩ := (IHk (sizeOf t) hszt).1 env st t hc (le_refl _)
      obtain ⟨⟨ti, st3⟩, heq1⟩ := Option.isSome_iff_exists.mp hn1
      have hsub : st ⊆ st3 := (extract_stack_sub n1).1 _ _ _ _ _ heq1
      have hc3 : envKeysLeft env st3 ≤ c :=
        le_trans (envKeysLeft_mono env _ _ hsub) hc
      obtain ⟨n2, hn2⟩ := (IHk (sizeOf ts) hszts).2.1 env st3 ts hc3 (le_refl _)
      obtain ⟨⟨tis, st4⟩, heq2⟩ := Option.isSome_iff_exists.mp hn2
      have heq1b := extractF_mono_le (le_max_left n1 n2) _ _ _ _ heq1
      have heq2b := extractListF_mono_le (le_max_right n1 n2) _ _ _ _ heq2
      refine ⟨max n1 n2 + 1, ?_⟩
      rw [extractListF]
      simp [heq1b, heq2b]
  · intro env st l hc hk
    cases l with
    | nil => exact ⟨1, by rw [extractFieldsF]; rfl⟩
    | cons f fs =>
      obtain ⟨fn, ft⟩ := f
      have hszt : sizeOf ft < k := by
        have h1 : sizeOf ft < sizeOf ((fn, ft) :: fs) := by simp; omega
        omega
      have hszfs : sizeOf fs < k := by
        have h1 : sizeOf fs < sizeOf ((fn, ft) :: fs) := by simp
        omega
      obtain ⟨n1, hn1⟩ := (IHk (sizeOf ft) hszt).1 env st ft hc (le_refl _)
      obtain ⟨⟨ti, st3⟩, heq1⟩ := Option.isSome_iff_exists.mp hn1
      have hsub : st ⊆ st3 := (extract_stack_sub n1).1 _ _ _ _ _ heq1
      have hc3 : envKeysLeft env st3 ≤ c :=
        le_trans (envKeysLeft_mono env _ _ hsub) hc
      obtain ⟨n2, hn2⟩ := (IHk (sizeOf fs) hszfs).2.2 env st3 fs hc3 (le_refl _)
      obtain ⟨⟨fis, st4⟩, heq2⟩ := Option.isSome_iff_exists.mp hn2
      have heq1b := extractF_mono_le (le_max_left n1 n2) _ _ _ _ heq1
      have heq2b := extractFieldsF_mono_le (le_max_right n1 n2) _ _ _ _ heq2
      refine ⟨max n1 n2 + 1, ?_⟩
      rw [extractFieldsF]
      simp [heq1b, heq2b]

/-- After extracting an elaborated descriptor, its stack entry is on the
output stack (pushed now, or already present when the guard fired). -/
theorem extract_elab_entry (n : Nat) (env : CEnv) (st : List String)
    (sp : String) (q : Quals) (r : TypeInfo) (st2 : List String)
    (h : extractF n env st (.elaborated sp q) = some (r, st2)) :
    stackEntry (CType.elaborated sp q) ∈ st2 := by
  cases n with
  | zero => simp [extractF] at h
  | succ n =>
    simp only [extractF, CType.isElaboratedKind, Bool.and_true] at h
    by_cases hg : st.contains (stackEntry (CType.elaborated sp q)) = true
    · rw [if_pos hg] at h
      simp only [Option.some.injEq, Prod.mk.injEq] at h
      exact h.2 ▸ (by simpa using hg)
    · rw [if_neg hg] at h
      cases hc : extractF n env (st ++ [stackEntry (CType.elaborated sp q)])
          (envCanonical env sp) with
      | none => simp only [hc] at h; cases h
      | some v =>
        obtain ⟨ti, st3⟩ := v
        simp only [hc] at h
        simp only [Option.some.injEq, Prod.mk.injEq] at h
        have hsub := (extract_stack_sub n).1 _ _ _ _ _ hc
        exact h.2 ▸ hsub (List.mem_append_right _ (List.mem_singleton.mpr rfl))

/-! ## Claim C3 -/

/-- Claim C3: `extract_type_info` terminates on every type descriptor — for
every environment, stack and descriptor some recursion-depth fuel yields a
result (in particular on self-referential and mutually-referential aggregate
graphs, expressible through the environment); and whenever the
spelling/kind stack entry of an elaborated type is already on the processing
stack, the call returns a name-only `TypeInfo` at once, leaving the stack
unchanged, instead of recursing into the canonical type. -/
theorem claim_c3 :
    (∀ (env : CEnv) (st : List String) (t : CType),
      ∃ n, (extractF n env st t).isSome = true) ∧
    (∀ (env : CEnv) (st : List String) (sp : String) (q : Quals) (n : Nat),
      st.contains (stackEntry (CType.elaborated sp q)) = true →
      extractF (n + 1) env st (.elaborated sp q) =
        some (TypeInfo.nameOnly sp, st)) := by
  constructor
  · intro env st t
    exact (extract_total_aux (envKeysLeft env st) (sizeOf t)).1 env st t
      (le_refl _) (le_refl _)
  · intro env st sp q n hg
    have hg3 : stackEntry (CType.elaborated sp q) ∈ st := by simpa using hg
    rw [extractF]
    simp [CType.isElaboratedKind, CType.spelling, hg3]

/-- Claim C3, witness: the self-referential `struct Foo` extracts at some
fuel, and a guarded elaborated reference returns the name-only stub. -/
theorem claim_c3_witness :
    (∃ n, (extractF n fooEnv [] fooElab).isSome = true) ∧
    extractF 1 fooEnv ["struct Foo TypeKind.ELABORATED"] fooElab =
      some (TypeInfo.nameOnly "struct Foo", ["struct Foo TypeKind.ELABORATED"]) :=
  ⟨claim_c3.1 fooEnv [] fooElab,
   claim_c3.2 fooEnv ["struct Foo TypeKind.ELABORATED"] "struct Foo" Quals.none 0
     (by rfl)⟩

/-! ## Claim C10 -/

/-- Claim C10: entries pushed onto the processing stack are never removed
within a top-level extraction: once an elaborated descriptor has been
processed anywhere in the traversal (first call), its entry stays on the
stack through any amount of further traversal (second call, on an arbitrary
descriptor), so every subsequent encounter returns the name-only stub and
leaves the stack unchanged. -/
theorem claim_c10 (env : CEnv) (st : List String) (sp : String) (q : Quals)
    (n m k : Nat) (ti : TypeInfo) (st1 : List String) (t2 : CType)
    (ti2 : TypeInfo) (st2 : List String)
    (h1 : extractF n env st (.elaborated sp q) = some (ti, st1))
    (h2 : extractF m env st1 t2 = some (ti2, st2)) :
    extractF (k + 1) env st2 (.elaborated sp q) =
      some (TypeInfo.nameOnly sp, st2) := by
  have he1 : stackEntry (CType.elaborated sp q) ∈ st1 :=
    extract_elab_entry n env st sp q ti st1 h1
  have hsub : st1 ⊆ st2 := (extract_stack_sub m).1 _ _ _ _ _ h2
  have he2 : stackEntry (CType.elaborated sp q) ∈ st2 := hsub he1
  rw [extractF]
  simp [CType.isElaboratedKind, CType.spelling, he2]

/-- Claim C10, witness: after extracting the elaborated `E` (with empty
environment, degrading to a basic canonical) and then an unrelated basic
descriptor `B`, a renewed encounter of `E` yields the stub and the unchanged
stack. -/
theorem claim_c10_witness :
    extractF 1 []
      ["E TypeKind.ELABORATED", "E TypeKind.UNEXPOSED", "B TypeKind.INT"]
      (.elaborated "E" Quals.none) =
      some (TypeInfo.nameOnly "E",
        ["E TypeKind.ELABORATED", "E TypeKind.UNEXPOSED", "B TypeKind.INT"]) :=
  claim_c10 [] [] "E" Quals.none 2 1 0
    (.mk "E" (some "E") (some []) none false none none false none none false
      none none false none none false none true)
    ["E TypeKind.ELABORATED", "E TypeKind.UNEXPOSED"]
    (.basic "B" Quals.none "B" "TypeKind.INT")
    (.mk "B" (some "B") (some []) none false none none false none none false
      none none false none none false none false)
    ["E TypeKind.ELABORATED", "E TypeKind.UNEXPOSED", "B TypeKind.INT"]
    (by rfl) (by rfl)

/-! ## Claim C9: prototype section of the output header -/

/-- A successful `protoLines` run pairs each table entry with its rendered
line, in order. -/
theorem protoLines_forall2 (store : TypeStore) (l : List (Int × Syscall)) :
    ∀ out, protoLines store l = some out →
      List.Forall₂ (fun p s => renderProtoLine store p = some s) l out := by
  induction l with
  | nil =>
    intro out h
    simp only [protoLines, Option.some.injEq] at h
    subst h
    exact List.Forall₂.nil
  | cons p rest ih =>
    intro out h
    cases hr : renderProtoLine store p with
    | none =>
      simp only [protoLines, hr] at h
      exact Option.noConfusion h
    | some s =>
      cases hrest : protoLines store rest with
      | none =>
        simp only [protoLines, hr, hrest] at h
        exact Option.noConfusion h
      | some more =>
        simp only [protoLines, hr, hrest, Option.some.injEq] at h
        subst h
        exact List.Forall₂.cons hr (ih more hrest)

/-- Shape of one rendered line: a prototype when the syscall has a matched
function, the explanatory comment otherwise. -/
theorem renderProtoLine_spec (store : TypeStore) (p : Int × Syscall)
    (s : String) (h : renderProtoLine store p = some s) :
    (∀ f, p.2.function = some f →
      ∃ a, s = f.return_type ++ " " ++ f.name ++ "(" ++ a ++ ");") ∧
    (p.2.function = none →
      s = "/* syscall " ++ p.2.name ++ " (#" ++ toString p.2.number ++
        ") - no function definition available */") := by
  constructor
  · intro f hf
    cases ha : renderProtoLine.argsStr store f.arguments with
    | none =>
      simp only [renderProtoLine, hf, ha] at h
      exact Option.noConfusion h
    | some a =>
      simp only [renderProtoLine, hf, ha, Option.some.injEq] at h
      exact ⟨a, h.symm⟩
  · intro hf
    simp only [renderProtoLine, hf, Option.some.injEq] at h
    exact h.symm

/-- With pairwise distinct syscall numbers, the sorted table's keys are
strictly ascending. -/
theorem sortSyscalls_sorted_lt (l : List (Int × Syscall))
    (hnd : (l.map Prod.fst).Nodup) :
    ((sortSyscalls l).map Prod.fst).Pairwise (fun a b => a < b) := by
  have hperm : List.Perm (sortSyscalls l) l := List.perm_insertionSort _ l
  have hs : List.Sorted (fun a b : Int × Syscall => a.1 ≤ b.1) (sortSyscalls l) :=
    List.sorted_insertionSort _ l
  have hnd2 : ((sortSyscalls l).map Prod.fst).Nodup :=
    ((hperm.map Prod.fst).nodup_iff).mpr hnd
  have h1 : (sortSyscalls l).Pairwise (fun p q => p.1 ≤ q.1) := hs
  have h2 : (sortSyscalls l).Pairwise (fun p q => p.1 ≠ q.1) :=
    List.pairwise_map.mp hnd2
  refine List.pairwise_map.mpr ((h1.and h2).imp ?_)
  rintro a b ⟨hle, hne⟩
  exact lt_of_le_of_ne hle hne

/-- Claim C9: on any successful run of `format_output_header` whose syscall
table has pairwise distinct numbers, the emitted lines contain a contiguous
prototype block, one line per table entry, ordered by strictly ascending
syscall number; an entry with a matched function yields its C prototype and
an entry without one yields, in the same position, the explanatory comment
naming the syscall and its number. -/
theorem claim_c9 (ctx : SyscallsContext) (lines : List String)
    (h : format_output_header_lines ctx = some lines)
    (hnd : (ctx.syscalls.map Prod.fst).Nodup) :
    ∃ (pre : List String) (protos : List String),
      lines = pre ++ protos ++ headerOutro ∧
      protoLines ctx.type_store (sortSyscalls ctx.syscalls) = some protos ∧
      List.Perm (sortSyscalls ctx.syscalls) ctx.syscalls ∧
      ((sortSyscalls ctx.syscalls).map Prod.fst).Pairwise (fun a b => a < b) ∧
      List.Forall₂ (fun (p : Int × Syscall) (s : String) =>
        (∀ f, p.2.function = some f →
          ∃ a, s = f.return_type ++ " " ++ f.name ++ "(" ++ a ++ ");") ∧
        (p.2.function = none →
          s = "/* syscall " ++ p.2.name ++ " (#" ++ toString p.2.number ++
            ") - no function definition available */"))
        (sortSyscalls ctx.syscalls) protos := by
  cases hg : get_types_to_add ctx with
  | none =>
    simp only [format_output_header_lines, hg] at h
    exact Option.noConfusion h
  | some tta =>
    cases htl : types_loop tta [] [] [] with
    | none =>
      simp only [format_output_header_lines, hg, htl] at h
      exact Option.noConfusion h
    | some tp =>
      obtain ⟨tdl, stl⟩ := tp
      cases hp : protoLines ctx.type_store (sortSyscalls ctx.syscalls) with
      | none =>
        simp only [format_output_header_lines, hg, htl, hp] at h
        exact Option.noConfusion h
      | some protos =>
        simp only [format_output_header_lines, hg, htl, hp,
          Option.some.injEq] at h
        refine ⟨headerPreamble ++ ["/* Type definitions */"] ++ tdl ++ [""] ++
          stl ++ [""] ++ ["/* Syscall function prototypes */"], protos,
          ?_, rfl, List.perm_insertionSort _ _,
          sortSyscalls_sorted_lt ctx.syscalls hnd, ?_⟩
        · rw [← h]
        · exact List.Forall₂.imp
            (fun p s hr => renderProtoLine_spec ctx.type_store p s hr)
            (protoLines_forall2 ctx.type_store _ protos hp)

/-- Claim C9, witness: the `read`/`write` fixture, whose table is listed out
of numeric order, renders with `read`'s prototype before `write`'s comment. -/
theorem claim_c9_witness :
    ∃ (pre : List String) (protos : List String),
      ["/* Automatically generated syscall definitions */",
       "#ifndef _SYSCALL_NUMBERS_H", "#define _SYSCALL_NUMBERS_H", "",
       "#ifdef __cplusplus", "extern \"C\" \x7b", "#endif", "",
       "#ifndef restrict", "#define restrict __restrict", "#endif", "",
       "/* Type definitions */", "", "", "/* Syscall function prototypes */",
       "ssize_t read(int fd, void * buf, size_t count);",
       "/* syscall write (#1) - no function definition available */",
       "", "#ifdef __cplusplus", "\x7d", "#endif", "",
       "#endif /* _SYSCALL_NUMBERS_H */"] = pre ++ protos ++ headerOutro ∧
      protoLines ctxRW.type_store (sortSyscalls ctxRW.syscalls) = some protos ∧
      List.Perm (sortSyscalls ctxRW.syscalls) ctxRW.syscalls ∧
      ((sortSyscalls ctxRW.syscalls).map Prod.fst).Pairwise (fun a b => a < b) ∧
      List.Forall₂ (fun (p : Int × Syscall) (s : String) =>
        (∀ f, p.2.function = some f →
          ∃ a, s = f.return_type ++ " " ++ f.name ++ "(" ++ a ++ ");") ∧
        (p.2.function = none →
          s = "/* syscall " ++ p.2.name ++ " (#" ++ toString p.2.number ++
            ") - no function definition available */"))
        (sortSyscalls ctxRW.syscalls) protos :=
  claim_c9 ctxRW
    ["/* Automatically generated syscall definitions */",
     "#ifndef _SYSCALL_NUMBERS_H", "#define _SYSCALL_NUMBERS_H", "",
     "#ifdef __cplusplus", "extern \"C\" \x7b", "#endif", "",
     "#ifndef restrict", "#define restrict __restrict", "#endif", "",
     "/* Type definitions */", "", "", "/* Syscall function prototypes */",
     "ssize_t read(int fd, void * buf, size_t count);",
     "/* syscall write (#1) - no function definition available */",
     "", "#ifdef __cplusplus", "\x7d", "#endif", "",
     "#endif /* _SYSCALL_NUMBERS_H */"]
    (by rfl) (by decide)
